import Mathlib

/-!
# Verification of the Mechanic Service Logger vehicle-search core

Shallow embedding of the fuzzy vehicle/customer lookup and suggestion
engine of `src/server/routes.ts` and the storage layer
(`src/unnamed/part_003`), together with proofs about the claims of the
specification.

Modelling conventions:
* JS strings are modelled as lists of UTF-16 code units (`List Nat`),
  matching the source's use of `charCodeAt` for character comparisons.
  ASCII case mapping models `toUpperCase` / `toLowerCase` / SQL
  `lower()` on the data appearing in this domain.
* Timestamps are modelled as naturals (epoch milliseconds, as compared
  by `getTime()` in the source).
* JS floating point arithmetic on scores is modelled by exact rational
  arithmetic (`ℚ`).  To keep everything kernel-computable the three
  arithmetic operations of the scorer (division, scaling by 0.9,
  and `1 - x`) are written with `mkRat`; lemmas below identify them
  with the corresponding field operations on `ℚ`.
* The SQL tables are modelled as lists in insertion order; a query
  without `ORDER BY` returns rows in table order, `ORDER BY` is a
  stable sort (insertion sort) of table order, `LIKE`/`ILIKE` are given their Postgres
  pattern semantics (with `\` as escape character).
-/

/-- JS strings as lists of UTF-16 code units. -/
abbrev Str := List Nat

/-- Code units of a Lean string literal (for writing concrete inputs). -/
def codes (s : String) : Str := s.data.map Char.toNat

/-- The JS `\s` character class (ASCII part: tab, LF, VT, FF, CR, space). -/
def isWSCode (n : Nat) : Bool := n = 32 || n = 9 || n = 10 || n = 11 || n = 12 || n = 13

/-- The JS `\d` character class, i.e. the regexes `/\d/` and `/\D/`. -/
def isDigitCode (n : Nat) : Bool := 48 ≤ n && n ≤ 57

/-- The JS `[a-zA-Z]` character class (routes.ts `hasLetters`). -/
def isAlphaCode (n : Nat) : Bool := (65 ≤ n && n ≤ 90) || (97 ≤ n && n ≤ 122)

/-- ASCII model of `String.prototype.toUpperCase` (one code unit). -/
def upCode (n : Nat) : Nat := if 97 ≤ n ∧ n ≤ 122 then n - 32 else n

/-- ASCII model of `String.prototype.toLowerCase` / SQL `lower()` (one code unit). -/
def loCode (n : Nat) : Nat := if 65 ≤ n ∧ n ≤ 90 then n + 32 else n

/-- `value.toUpperCase()`. -/
def upStr (s : Str) : Str := s.map upCode

/-- `value.toLowerCase()` / SQL `lower(value)`. -/
def loStr (s : Str) : Str := s.map loCode

/-- `value.replace(/\D/g, "")` (routes.ts `normalizePhoneDigits` and the
    storage layer's digit projections). -/
def digitsOf (s : Str) : Str := s.filter isDigitCode

/-- `String.prototype.trim`. -/
def trimStr (s : Str) : Str := ((s.dropWhile isWSCode).reverse.dropWhile isWSCode).reverse

/-- One-pass scanner for `value.replace(/\s+/g, " ")`: `inRun` records
    whether the previous character was whitespace, so each maximal
    whitespace run is emitted as a single space. -/
def collapseGo : Bool → Str → Str
  | _, [] => []
  | inRun, c :: rest =>
    if isWSCode c then
      (if inRun then collapseGo true rest else 32 :: collapseGo true rest)
    else c :: collapseGo false rest

/-- `value.replace(/\s+/g, " ")`: each maximal whitespace run becomes one space. -/
def collapseWS (s : Str) : Str := collapseGo false s

/-- routes.ts `normalizeWhitespace`: `value.replace(/\s+/g, " ").trim()`. -/
def normWS (s : Str) : Str := trimStr (collapseWS s)

/-- routes.ts `isLikelyPlate`: after removing all whitespace the string has
    length at least 4 and contains a letter and a digit. -/
def isLikelyPlate (s : Str) : Bool :=
  let compact := s.filter (fun c => !isWSCode c)
  decide (4 ≤ compact.length) && compact.any isAlphaCode && compact.any isDigitCode

/-- `hay.includes(needle)`: substring containment. -/
def strContains (hay needle : Str) : Bool := hay.tails.any (fun t => needle.isPrefixOf t)

/-! ## SQL LIKE / ILIKE pattern matching

`likeMatch fold pattern s` is Postgres pattern matching with `%`, `_` and
the default escape character `\`; `fold` is applied to both sides of every
literal character comparison (`upCode` models the case-insensitivity of
`ILIKE`, `id` gives case-sensitive `LIKE`).  A pattern ending in a dangling
escape character matches nothing. -/
def likeMatch (fold : Nat → Nat) : Str → Str → Bool
  | [], s => s.isEmpty
  | p :: ps, s =>
    if p = 37 then
      s.tails.any (fun t => likeMatch fold ps t)
    else if p = 95 then
      (match s with
       | [] => false
       | _ :: s2 => likeMatch fold ps s2)
    else if p = 92 then
      (match ps with
       | [] => false
       | c :: ps2 =>
         match s with
         | [] => false
         | x :: s2 => (fold x = fold c) && likeMatch fold ps2 s2)
    else
      (match s with
       | [] => false
       | x :: s2 => (fold x = fold p) && likeMatch fold ps s2)

/-- drizzle `ilike(column, pattern)` (Postgres `ILIKE`, case-insensitive). -/
def ilikeCond (pattern s : Str) : Bool := likeMatch upCode pattern s

/-- SQL `LIKE` (case-sensitive), used for the digit patterns. -/
def likeCond (pattern s : Str) : Bool := likeMatch id pattern s

/-! ## Pattern generation (storage layer) -/

/-- part_003 `escapeLikePattern`: prefix `%` (37) and `_` (95) with `\` (92). -/
def escapeLikePattern : Str → Str
  | [] => []
  | c :: rest => (if c = 37 ∨ c = 95 then [92, c] else [c]) ++ escapeLikePattern rest

/-- `Set.prototype.add` on a list kept in insertion order. -/
def addUnique (acc : List Str) (x : Str) : List Str := if x ∈ acc then acc else acc ++ [x]

/-- All single-character-deletion variants `slice(0, i) + slice(i + 1)`. -/
def deletionVariants (s : Str) : List Str :=
  (List.range s.length).map (fun i => s.take i ++ s.drop (i + 1))

/-- Scanner for `normalized.split(/\s+/)`: `cur` is the current token,
    accumulated in reverse. -/
def wsTokensGo (cur : Str) : Str → List Str
  | [] => if cur = [] then [] else [cur.reverse]
  | c :: rest =>
    if isWSCode c then
      (if cur = [] then wsTokensGo [] rest else cur.reverse :: wsTokensGo [] rest)
    else wsTokensGo (c :: cur) rest

/-- `normalized.split(/\s+/)` for a trimmed string: maximal non-whitespace runs. -/
def wsTokens (s : Str) : List Str := wsTokensGo [] s

/-- Wrap an (escaped) body into a `%…%` contains-pattern. -/
def wrapPct (body : Str) : Str := 37 :: body ++ [37]

/-- part_003 `buildFuzzyPatterns` (MIN_SUBSTRING_LENGTH = 3). -/
def buildFuzzyPatterns (value : Str) : List Str :=
  let normalized := trimStr value
  if normalized = [] then []
  else
    let base := addUnique [] (wrapPct (escapeLikePattern normalized))
    let withVariants :=
      if 3 + 1 ≤ normalized.length then
        (deletionVariants normalized).foldl
          (fun acc variant =>
            if 3 ≤ variant.length then addUnique acc (wrapPct (escapeLikePattern variant)) else acc)
          base
      else base
    (wsTokens normalized).foldl
      (fun acc token =>
        if 3 ≤ token.length then addUnique acc (wrapPct (escapeLikePattern token)) else acc)
      withVariants

/-- part_003 `buildDigitPatterns` (digit patterns are not escaped; a digits-only
    string cannot contain `%` or `_`). -/
def buildDigitPatterns (value : Str) : List Str :=
  let digitsOnly := trimStr (digitsOf value)
  if digitsOnly = [] then []
  else
    let base := addUnique [] (wrapPct digitsOnly)
    if 3 + 1 ≤ digitsOnly.length then
      (deletionVariants digitsOnly).foldl
        (fun acc variant =>
          if 3 ≤ variant.length then addUnique acc (wrapPct variant) else acc)
        base
    else base

/-! ## Levenshtein distance (part_003 `levenshteinDistance`)

The source fills an `(aLength+1) × (bLength+1)` matrix row by row with the
classical recurrence and returns `matrix[aLength][bLength]`.  We embed the
loop as an iterated row computation: `levRowAux` produces the entries of
row `i+1` for columns `1..bLength` from row `i` and the running entry to
the left, and `levRowsGo` iterates over the characters of `a`. -/

/-- Substitution cost: `charA === charB ? 0 : 1`. -/
def levCost (a b : Nat) : Nat := if a = b then 0 else 1

/-- One inner loop (`for j`): consume the remaining characters of `b`
    together with the corresponding entries of the previous row
    (`p0 = matrix[i][j-1]`, `p1 = matrix[i][j]`), with `left` the entry
    `matrix[i+1][j-1]` just computed. -/
def levRowAux (ca : Nat) : Str → List Nat → Nat → List Nat
  | [], _, _ => []
  | cb :: bs, p0 :: p1 :: ps, left =>
      let v := min (p1 + 1) (min (left + 1) (p0 + levCost ca cb))
      v :: levRowAux ca bs (p1 :: ps) v
  | _ :: _, _, _ => []

/-- Row `i+1` of the matrix: border entry `i+1` followed by the inner loop. -/
def levRow (ca : Nat) (b : Str) (prev : List Nat) (i1 : Nat) : List Nat :=
  i1 :: levRowAux ca b prev i1

/-- The outer loop (`for i`): fold the rows over the characters of `a`. -/
def levRowsGo (b : Str) : Str → List Nat → Nat → List Nat
  | [], prev, _ => prev
  | ca :: as, prev, i => levRowsGo b as (levRow ca b prev (i + 1)) (i + 1)

/-- The final matrix row `matrix[aLength]`; row `0` is `[0, 1, …, bLength]`. -/
def levRows (a b : Str) : List Nat := levRowsGo b a (List.range (b.length + 1)) 0

/-- part_003 `levenshteinDistance`: early-outs for equal and empty inputs,
    otherwise `matrix[aLength][bLength]`. -/
def levenshteinDistance (a b : Str) : Nat :=
  if a = b then 0
  else if a.length = 0 then b.length
  else if b.length = 0 then a.length
  else (levRows a b).getD b.length 0

/-! ## Scorer (part_003 `computeCandidateScore`) -/

/-- `num / den` on scores, written with `mkRat` so that it kernel-computes;
    `levScore_div_eq` below identifies it with division in `ℚ`. -/
def ratDiv (num den : Nat) : ℚ := mkRat num den

/-- `d * 0.9`, written with `mkRat`; `ratScale910_eq` identifies it with
    multiplication by `9/10` in `ℚ`. -/
def ratScale910 (d : ℚ) : ℚ := mkRat (d.num * 9) (d.den * 10)

/-- `1 - c`, written with `mkRat`; `oneMinus_eq` identifies it with
    subtraction in `ℚ`. -/
def oneMinus (c : ℚ) : ℚ := mkRat ((c.den : Int) - c.num) c.den

/-- A vehicle row of the record store.  `year` is irrelevant to the search
    core and omitted; `createdAt` is an epoch-millisecond timestamp. -/
structure Vehicle where
  id : Nat
  customerId : Nat
  plateNumber : Str
  make : Str
  model : Str
  createdAt : Nat
deriving DecidableEq

/-- A customer row (email/address/notes are irrelevant to the core). -/
structure Customer where
  id : Nat
  phone : Str
  name : Str
deriving DecidableEq

/-- A service row (only the fields the lookup payload depends on). -/
structure Service where
  id : Nat
  vehicleId : Nat
  customerId : Nat
  serviceDate : Nat
deriving DecidableEq

/-- part_003 `VehicleWithCustomer` (left-join row). -/
structure VehicleWithCustomer where
  vehicle : Vehicle
  customer : Option Customer
deriving DecidableEq

/-- The record store: the three tables, each in insertion order. -/
structure Store where
  customers : List Customer
  vehicles : List Vehicle
  services : List Service
deriving DecidableEq

/-- The comparison strings of a candidate: uppercased plate, uppercased
    trimmed "make model" label, uppercased customer name — each included
    only when non-empty (JS truthiness). -/
def comparisonValues (entry : VehicleWithCustomer) : List Str :=
  (if entry.vehicle.plateNumber ≠ [] then [upStr entry.vehicle.plateNumber] else []) ++
  (let vehicleLabel := trimStr (entry.vehicle.make ++ [32] ++ entry.vehicle.model)
   if vehicleLabel ≠ [] then [upStr vehicleLabel] else []) ++
  (match entry.customer with
   | some c => if c.name ≠ [] then [upStr c.name] else []
   | none => [])

/-- One step of the comparison loop: `bestDistance` is `none` while still
    `POSITIVE_INFINITY`.  Updates the running minimum with the normalized
    edit distance and applies the containment clamp to `0.05`. -/
def scoreStep (normalizedTerm : Str) (termLength : Nat) (best : Option ℚ) (value : Str) :
    Option ℚ :=
  if value = [] then best
  else
    let d : ℚ := ratDiv (levenshteinDistance normalizedTerm value) (max value.length (max termLength 1))
    let b1 : ℚ := match best with | none => d | some b => min b d
    if strContains value normalizedTerm || strContains normalizedTerm value then
      some (min b1 (mkRat 1 20))
    else some b1

/-- The phone channel: normalized edit distance between the digit terms,
    discounted by `0.9`, folded into the running minimum. -/
def phoneChannel (digitOnlyTerm : Str) (entry : VehicleWithCustomer) (best : Option ℚ) :
    Option ℚ :=
  if digitOnlyTerm ≠ [] then
    match entry.customer with
    | some c =>
      let candidateDigits := digitsOf c.phone
      if candidateDigits ≠ [] then
        let d : ℚ := ratScale910 (ratDiv (levenshteinDistance digitOnlyTerm candidateDigits)
          (max candidateDigits.length (max digitOnlyTerm.length 1)))
        some (match best with | none => d | some b => min b d)
      else best
    | none => best
  else best

/-- part_003 `computeCandidateScore`. -/
def computeCandidateScore (normalizedTerm digitOnlyTerm : Str) (entry : VehicleWithCustomer) :
    ℚ :=
  if normalizedTerm = [] ∧ digitOnlyTerm = [] then 0
  else
    let termLength := max normalizedTerm.length 1
    let best0 := (comparisonValues entry).foldl (scoreStep normalizedTerm termLength) none
    match phoneChannel digitOnlyTerm entry best0 with
    | none => 0
    | some b => oneMinus (min (max b 0) 1)

/-! ## Record store operations (part_003 `DbStorage`) -/

/-- `getVehicleByPlate`: first row of `select … where ilike(plateNumber, arg)`
    in table order (the query has no ORDER BY). -/
def getVehicleByPlate (st : Store) (plateNumber : Str) : Option Vehicle :=
  st.vehicles.find? (fun v => ilikeCond plateNumber v.plateNumber)

/-- `getCustomerByNormalizedPhone`: first customer whose digits-only phone
    equals the digits-only argument. -/
def getCustomerByNormalizedPhone (st : Store) (phone : Str) : Option Customer :=
  let normalized := digitsOf phone
  if normalized = [] then none
  else st.customers.find? (fun c => digitsOf c.phone == normalized)

/-- `getCustomersByExactName`: all customers with `lower(name) = lower(trimmed)`. -/
def getCustomersByExactName (st : Store) (name : Str) : List Customer :=
  let trimmed := trimStr name
  if trimmed = [] then []
  else st.customers.filter (fun c => loStr c.name == loStr trimmed)

/-- `getVehiclesByCustomer`. -/
def getVehiclesByCustomer (st : Store) (customerId : Nat) : List Vehicle :=
  st.vehicles.filter (fun v => v.customerId == customerId)

/-- `getCustomer`. -/
def getCustomer (st : Store) (id : Nat) : Option Customer :=
  st.customers.find? (fun c => c.id == id)

/-- `getServicesByVehicle` (ordered by service date descending). -/
def getServicesByVehicle (st : Store) (vehicleId : Nat) : List Service :=
  (st.services.filter (fun s => s.vehicleId == vehicleId)).insertionSort
    (fun a b => b.serviceDate ≤ a.serviceDate)

/-- The `vehicles leftJoin customers` row set, one row per vehicle. -/
def joinRows (st : Store) : List VehicleWithCustomer :=
  st.vehicles.map (fun v => ⟨v, st.customers.find? (fun c => c.id == v.customerId)⟩)

/-- The OR-combined WHERE clause of `searchVehicleCandidates`: some text
    pattern ILIKE-matches plate, make, model or customer name, or some digit
    pattern LIKE-matches the digits-only customer phone (`NULL` columns of
    the left join never match). -/
def rowMatchesConditions (likePatterns digitPatterns : List Str) (row : VehicleWithCustomer) :
    Bool :=
  likePatterns.any (fun p =>
    ilikeCond p row.vehicle.plateNumber || ilikeCond p row.vehicle.make ||
      ilikeCond p row.vehicle.model ||
      (match row.customer with | some c => ilikeCond p c.name | none => false)) ||
  digitPatterns.any (fun p =>
    match row.customer with | some c => likeCond p (digitsOf c.phone) | none => false)

/-- `ORDER BY vehicles.createdAt DESC` (stable in table order on ties). -/
def byCreatedDesc (a b : VehicleWithCustomer) : Prop :=
  b.vehicle.createdAt ≤ a.vehicle.createdAt

instance : DecidableRel byCreatedDesc := fun a b => Nat.decLe _ _

/-- `scored.set` with the `!existing || score > existing.score` guard:
    a JS `Map.set` on an existing key keeps the original position. -/
def upsertScored (acc : List (VehicleWithCustomer × ℚ)) (r : VehicleWithCustomer) (s : ℚ) :
    List (VehicleWithCustomer × ℚ) :=
  if acc.any (fun e => e.1.vehicle.id == r.vehicle.id) then
    acc.map (fun e => if e.1.vehicle.id == r.vehicle.id ∧ e.2 < s then (r, s) else e)
  else acc ++ [(r, s)]

/-- The scoring/dedup loop over the raw rows. -/
def scoredFold (normalizedTerm digitOnlyTerm : Str) (rows : List VehicleWithCustomer) :
    List (VehicleWithCustomer × ℚ) :=
  rows.foldl (fun acc r => upsertScored acc r (computeCandidateScore normalizedTerm digitOnlyTerm r)) []

/-- The final sort comparator: score descending, ties by `createdAt`
    descending, stable on full ties. -/
def candLE (a b : VehicleWithCustomer × ℚ) : Prop :=
  if a.2 = b.2 then b.1.vehicle.createdAt ≤ a.1.vehicle.createdAt else b.2 < a.2

instance : DecidableRel candLE := fun a b => by unfold candLE; infer_instance

/-- part_003 `searchVehicleCandidates`. -/
def searchVehicleCandidates (st : Store) (term : Str) (limit : Nat) :
    List VehicleWithCustomer :=
  let sanitized := trimStr term
  if sanitized = [] then []
  else
    let normalizedTerm := upStr sanitized
    let digitOnlyTerm := digitsOf sanitized
    let likePatterns := buildFuzzyPatterns sanitized
    let digitPatterns := if digitOnlyTerm ≠ [] then buildDigitPatterns digitOnlyTerm else []
    let raw := (((joinRows st).filter
      (rowMatchesConditions likePatterns digitPatterns)).insertionSort
      byCreatedDesc).take (max limit 5 * 6)
    let scored := scoredFold normalizedTerm digitOnlyTerm raw
    ((scored.insertionSort candLE).take limit).map (fun e => e.1)

/-! ## Search pipeline (routes.ts) -/

/-- The reason tags of suggestions. -/
inductive SuggestionReason
  | plate
  | phone
  | name
  | vehicle
  | partialMatch
deriving DecidableEq

/-- routes.ts `LookupPayload`. -/
structure LookupPayload where
  vehicle : Vehicle
  customer : Option Customer
  services : List Service
deriving DecidableEq

/-- routes.ts `SuggestionPayload`. -/
structure SuggestionPayload where
  vehicle : Vehicle
  customer : Option Customer
  reason : SuggestionReason
deriving DecidableEq

/-- routes.ts `VEHICLE_SUGGESTION_LIMIT`. -/
def VEHICLE_SUGGESTION_LIMIT : Nat := 5

/-- routes.ts `buildLookupPayload`. -/
def buildLookupPayload (st : Store) (v : Vehicle) : LookupPayload :=
  ⟨v, getCustomer st v.customerId, getServicesByVehicle st v.id⟩

/-- routes.ts `determineSuggestionReason`, with its fixed priority order
    plate → phone → name → vehicle → partial. -/
def determineSuggestionReason (normalizedTerm digitsOnly : Str) (candidate : Vehicle)
    (customer : Option Customer) : SuggestionReason :=
  let upperTerm := upStr normalizedTerm
  let plateUpper := upStr candidate.plateNumber
  if upperTerm ≠ [] ∧ strContains plateUpper upperTerm then .plate
  else if digitsOnly ≠ [] &&
      (match customer with
       | some c => decide (c.phone ≠ []) && strContains (digitsOf c.phone) digitsOnly
       | none => false) then .phone
  else if upperTerm ≠ [] &&
      (match customer with
       | some c => decide (c.name ≠ []) && strContains (upStr c.name) upperTerm
       | none => false) then .name
  else if upperTerm ≠ [] ∧
      (strContains (upStr candidate.make) upperTerm ∨
        strContains (upStr candidate.model) upperTerm) then .vehicle
  else .partialMatch

/-- The truthiness guard `matchVehicleId && vehicle.id === matchVehicleId`
    (an id of `0` is falsy in JS, so the guard is skipped for it). -/
def matchGuard (matchVehicleId : Option Nat) (vid : Nat) : Bool :=
  match matchVehicleId with
  | none => false
  | some m => (m ≠ 0) && (vid = m)

/-- `accumulator.has(vehicle.id)` for the insertion-ordered accumulator. -/
def hasId (acc : List SuggestionPayload) (vid : Nat) : Bool :=
  acc.any (fun s => s.vehicle.id == vid)

/-- The seed-insertion loop of `buildSuggestions`. -/
def insertSeeds (matchVehicleId : Option Nat) (seeds : List SuggestionPayload) :
    List SuggestionPayload :=
  seeds.foldl
    (fun acc s =>
      if matchGuard matchVehicleId s.vehicle.id then acc
      else if hasId acc s.vehicle.id then acc
      else acc ++ [s])
    []

/-- The fetched-candidate loop of `buildSuggestions`, with the early break
    once the accumulator reaches `VEHICLE_SUGGESTION_LIMIT`. -/
def insertCandidates (matchVehicleId : Option Nat) (normalizedTerm digitsOnly : Str) :
    List SuggestionPayload → List VehicleWithCustomer → List SuggestionPayload
  | acc, [] => acc
  | acc, cand :: rest =>
    if matchGuard matchVehicleId cand.vehicle.id then
      insertCandidates matchVehicleId normalizedTerm digitsOnly acc rest
    else if hasId acc cand.vehicle.id then
      insertCandidates matchVehicleId normalizedTerm digitsOnly acc rest
    else
      let acc2 := acc ++
        [⟨cand.vehicle, cand.customer,
          determineSuggestionReason normalizedTerm digitsOnly cand.vehicle cand.customer⟩]
      if VEHICLE_SUGGESTION_LIMIT ≤ acc2.length then acc2
      else insertCandidates matchVehicleId normalizedTerm digitsOnly acc2 rest

/-- routes.ts `buildSuggestions`. -/
def buildSuggestions (st : Store) (term : Str) (matchVehicleId : Option Nat)
    (seeds : List SuggestionPayload) : List SuggestionPayload :=
  let normalizedTerm := normWS term
  let digitsOnly := digitsOf normalizedTerm
  let candidateLimit := max VEHICLE_SUGGESTION_LIMIT seeds.length
  let acc := insertSeeds matchVehicleId seeds
  let fetched := searchVehicleCandidates st normalizedTerm (candidateLimit * 2)
  (insertCandidates matchVehicleId normalizedTerm digitsOnly acc fetched).take
    VEHICLE_SUGGESTION_LIMIT

/-- routes.ts `resolvePrimaryMatch`: plate, then unique-customer-by-phone,
    then unique-customer-by-name, collecting seed suggestions on the way. -/
def resolvePrimaryMatch (st : Store) (term : Str) :
    Option LookupPayload × List SuggestionPayload :=
  let normalizedTerm := normWS term
  let uppercaseTerm := upStr normalizedTerm
  let digitsOnly := digitsOf normalizedTerm
  let plateRes : Option Vehicle :=
    if normalizedTerm ≠ [] ∧ isLikelyPlate normalizedTerm then
      getVehicleByPlate st uppercaseTerm
    else none
  match plateRes with
  | some v => (some (buildLookupPayload st v), [])
  | none =>
    let phoneStep : Option Vehicle × List SuggestionPayload :=
      if 7 ≤ digitsOnly.length then
        match getCustomerByNormalizedPhone st digitsOnly with
        | some c =>
          match getVehiclesByCustomer st c.id with
          | [v] => (some v, [])
          | vs => (none, vs.map (fun v => ⟨v, some c, .phone⟩))
        | none => (none, [])
      else (none, [])
    match phoneStep with
    | (some v, seeds) => (some (buildLookupPayload st v), seeds)
    | (none, phoneSeeds) =>
      if normalizedTerm ≠ [] then
        match getCustomersByExactName st normalizedTerm with
        | [c] =>
          match getVehiclesByCustomer st c.id with
          | [v] => (some (buildLookupPayload st v), phoneSeeds)
          | vs => (none, phoneSeeds ++ vs.map (fun v => ⟨v, some c, .name⟩))
        | [] => (none, phoneSeeds)
        | cs =>
          (none, phoneSeeds ++ cs.flatMap
            (fun c => (getVehiclesByCustomer st c.id).map (fun v => ⟨v, some c, .name⟩)))
      else (none, phoneSeeds)

/-- The response of `GET /api/vehicles/search`. -/
structure SearchResult where
  matchResult : Option LookupPayload
  suggestions : List SuggestionPayload
deriving DecidableEq

/-- The `GET /api/vehicles/search` handler from the normalized term onward:
    an empty normalized term is rejected (`400`, modelled as `none`),
    otherwise the resolver output and the assembled suggestions are
    returned. -/
def vehicleSearch (st : Store) (rawQuery : Str) : Option SearchResult :=
  let searchTerm := normWS rawQuery
  if searchTerm = [] then none
  else
    let r := resolvePrimaryMatch st searchTerm
    some ⟨r.1, buildSuggestions st searchTerm ((r.1).map (fun p => p.vehicle.id)) r.2⟩

/-! ## Data-model invariants and specification-side definitions -/

/-- The data-model invariants of the record store (spec §3 together with the
    schema): serial ids are positive and unique, plate numbers are unique
    case-insensitively, phones identify at most one customer. -/
def WFStore (st : Store) : Prop :=
  (∀ v ∈ st.vehicles, 0 < v.id) ∧
  (∀ c ∈ st.customers, 0 < c.id) ∧
  (st.vehicles.map (fun v => v.id)).Nodup ∧
  (st.customers.map (fun c => c.id)).Nodup ∧
  (st.vehicles.map (fun v => upStr v.plateNumber)).Nodup ∧
  (st.customers.map (fun c => digitsOf c.phone)).Nodup

instance (st : Store) : Decidable (WFStore st) := by
  unfold WFStore
  infer_instance

/-- Modelled from the spec's words for claim C3: deduplication by vehicle
    identity, keeping first occurrences. -/
def dedupById (seeds : List SuggestionPayload) : List SuggestionPayload :=
  seeds.foldl (fun acc s => if hasId acc s.vehicle.id then acc else acc ++ [s]) []

/-- Modelled from the spec's words for claim C3: the seed suggestions
    (deduplicated, with the resolved match excluded). -/
def specSeedPart (matchVehicleId : Option Nat) (seeds : List SuggestionPayload) :
    List SuggestionPayload :=
  dedupById (seeds.filter (fun s => !matchGuard matchVehicleId s.vehicle.id))

/-- Modelled from the spec's words for claim C3: the scored fetched
    candidates that survive (not the match, not already seeded), tagged with
    their reason. -/
def specCandPart (st : Store) (term : Str) (matchVehicleId : Option Nat)
    (seeds : List SuggestionPayload) : List SuggestionPayload :=
  let normalizedTerm := normWS term
  let digitsOnly := digitsOf normalizedTerm
  let fetched := searchVehicleCandidates st normalizedTerm
    (max VEHICLE_SUGGESTION_LIMIT seeds.length * 2)
  (fetched.filter (fun c =>
      !matchGuard matchVehicleId c.vehicle.id &&
      !hasId (specSeedPart matchVehicleId seeds) c.vehicle.id)).map
    (fun c => ⟨c.vehicle, c.customer,
      determineSuggestionReason normalizedTerm digitsOnly c.vehicle c.customer⟩)

/-- Modelled from the spec's words for claim C3: seeds first (rank-agnostic
    highest priority), then the scored candidates in fetch order,
    deduplicated by vehicle id and truncated to the limit. -/
def specAssembled (st : Store) (term : Str) (matchVehicleId : Option Nat)
    (seeds : List SuggestionPayload) : List SuggestionPayload :=
  (specSeedPart matchVehicleId seeds ++ specCandPart st term matchVehicleId seeds).take
    VEHICLE_SUGGESTION_LIMIT

/-- The score under which the fetcher ranks a candidate for a given term. -/
def fetchScore (term : Str) (c : VehicleWithCustomer) : ℚ :=
  computeCandidateScore (upStr (trimStr term)) (digitsOf (trimStr term)) c

/-- "Ranked before": strictly higher score, or equal score and no older
    creation timestamp (ties broken by recency, newer wins). -/
def fetchOrdered (term : Str) (a b : VehicleWithCustomer) : Prop :=
  fetchScore term b < fetchScore term a ∨
    (fetchScore term a = fetchScore term b ∧ b.vehicle.createdAt ≤ a.vehicle.createdAt)

/-- Modelled from the spec's words for claim C10: the standard Levenshtein
    recurrence (distance between two strings as the minimum number of
    single-character insertions, deletions and substitutions); identified
    with Mathlib's `levenshtein` below. -/
def levSpec : Str → Str → Nat
  | [], ys => ys.length
  | x :: xs, [] => (x :: xs).length
  | x :: xs, y :: ys =>
      min (levSpec xs (y :: ys) + 1) (min (levSpec (x :: xs) ys + 1) (levSpec xs ys + levCost x y))

/-- The row of Levenshtein distances `levSpec u (front ++ w')` for the
    prefixes `w'` of `w` (used to relate the DP rows to `levSpec`). -/
def rowOf (u : Str) : Str → Str → List Nat
  | front, [] => [levSpec u front]
  | front, c :: w => levSpec u front :: rowOf u (front ++ [c]) w

/-! ## Basic bridge lemmas -/

theorem strContains_iff {hay needle : Str} : strContains hay needle = true ↔ needle <:+: hay := by
  simp only [strContains, List.any_eq_true, List.mem_tails, List.isPrefixOf_iff_prefix]
  constructor
  · rintro ⟨t, ht, hp⟩
    exact List.infix_iff_prefix_suffix.mpr ⟨t, hp, ht⟩
  · intro h
    obtain ⟨t, hp, ht⟩ := List.infix_iff_prefix_suffix.mp h
    exact ⟨t, ht, hp⟩

theorem ratDiv_eq (n d : Nat) : ratDiv n d = (n : ℚ) / (d : ℚ) := by
  simp [ratDiv, Rat.mkRat_eq_div]

theorem ratScale910_eq (d : ℚ) : ratScale910 d = d * (9 / 10) := by
  have h10 : ((10 : ℚ)) ≠ 0 := by norm_num
  have hden : ((d.den : ℚ)) ≠ 0 := by
    exact_mod_cast d.den_nz
  calc ratScale910 d = ((d.num * 9 : ℤ) : ℚ) / ((d.den * 10 : ℕ) : ℚ) := by
        simp [ratScale910, Rat.mkRat_eq_div]
    _ = ((d.num : ℚ) / d.den) * (9 / 10) := by
        push_cast
        field_simp
    _ = d * (9 / 10) := by rw [Rat.num_div_den]

theorem oneMinus_eq (c : ℚ) : oneMinus c = 1 - c := by
  have hden : ((c.den : ℚ)) ≠ 0 := by exact_mod_cast c.den_nz
  calc oneMinus c = (((c.den : Int) - c.num : ℤ) : ℚ) / ((c.den : ℕ) : ℚ) := by
        simp [oneMinus, Rat.mkRat_eq_div]
    _ = 1 - (c.num : ℚ) / c.den := by
        push_cast
        field_simp
    _ = 1 - c := by rw [Rat.num_div_den]

/-! ## Claim C8: the containment bonus -/

theorem scoreStep_current_le (t : Str) (tl : Nat) (best : Option ℚ) {v : Str} (hv : v ≠ [])
    (hc : strContains v t || strContains t v) :
    ∃ b : ℚ, scoreStep t tl best v = some b ∧ b ≤ mkRat 1 20 := by
  refine ⟨min
    (match best with
     | none => ratDiv (levenshteinDistance t v) (max v.length (max tl 1))
     | some b => min b (ratDiv (levenshteinDistance t v) (max v.length (max tl 1))))
    (mkRat 1 20), ?_, min_le_right _ _⟩
  simp [scoreStep, hv, hc]

theorem foldl_scoreStep_mono (t : Str) (tl : Nat) :
    ∀ (l : List Str) (b : ℚ), ∃ b2 : ℚ,
      l.foldl (scoreStep t tl) (some b) = some b2 ∧ b2 ≤ b := by
  intro l
  induction l with
  | nil => exact fun b => ⟨b, rfl, le_refl b⟩
  | cons v rest ih =>
    intro b
    by_cases hv : v = []
    · simpa [scoreStep, hv] using ih b
    · by_cases hc : (strContains v t || strContains t v : Bool)
      · obtain ⟨b2, h2, hle⟩ := ih (min (min b _) (mkRat 1 20))
        refine ⟨b2, by simpa [scoreStep, hv, hc] using h2, ?_⟩
        exact hle.trans ((min_le_left _ _).trans (min_le_left _ _))
      · obtain ⟨b2, h2, hle⟩ := ih (min b _)
        refine ⟨b2, by simpa [scoreStep, hv, hc] using h2, ?_⟩
        exact hle.trans (min_le_left _ _)

theorem phoneChannel_mono (dt : Str) (entry : VehicleWithCustomer) (b : ℚ) :
    ∃ b2 : ℚ, phoneChannel dt entry (some b) = some b2 ∧ b2 ≤ b := by
  unfold phoneChannel
  by_cases hdt : dt = []
  · exact ⟨b, by simp [hdt], le_refl b⟩
  · match hcust : entry.customer with
    | none => exact ⟨b, by simp [hdt, hcust], le_refl b⟩
    | some c =>
      by_cases hcd : digitsOf c.phone = []
      · exact ⟨b, by simp [hdt, hcust, hcd], le_refl b⟩
      · exact ⟨min b (ratScale910 (ratDiv (levenshteinDistance dt (digitsOf c.phone))
          (max (digitsOf c.phone).length (max dt.length 1)))),
          by simp [hdt, hcust, hcd], min_le_left _ _⟩

theorem computeCandidateScore_ge_of_contained (s : Str) (entry : VehicleWithCustomer)
    (hs : s ≠ []) (hp : entry.vehicle.plateNumber ≠ [])
    (hc : upStr entry.vehicle.plateNumber <:+: upStr s ∨ upStr s <:+: upStr entry.vehicle.plateNumber) :
    (95 : ℚ) / 100 ≤ computeCandidateScore (upStr s) (digitsOf s) entry := by
  have hterm : upStr s ≠ [] := by
    intro h
    exact hs (List.map_eq_nil_iff.mp h)
  have hval : upStr entry.vehicle.plateNumber ≠ [] := by
    intro h
    exact hp (List.map_eq_nil_iff.mp h)
  have hcb : (strContains (upStr entry.vehicle.plateNumber) (upStr s) ||
      strContains (upStr s) (upStr entry.vehicle.plateNumber) : Bool) := by
    rcases hc with h | h
    · exact Bool.or_eq_true_iff.mpr (Or.inr (strContains_iff.mpr h))
    · exact Bool.or_eq_true_iff.mpr (Or.inl (strContains_iff.mpr h))
  have hcv : comparisonValues entry =
      upStr entry.vehicle.plateNumber ::
        ((let vehicleLabel := trimStr (entry.vehicle.make ++ [32] ++ entry.vehicle.model)
          if vehicleLabel ≠ [] then [upStr vehicleLabel] else []) ++
          (match entry.customer with
           | some c => if c.name ≠ [] then [upStr c.name] else []
           | none => [])) := by
    simp [comparisonValues, hp]
  obtain ⟨b1, hb1, hb1le⟩ :=
    scoreStep_current_le (upStr s) (max (upStr s).length 1) none hval hcb
  obtain ⟨b2, hb2, hb2le⟩ := foldl_scoreStep_mono (upStr s) (max (upStr s).length 1) _ b1
  obtain ⟨b3, hb3, hb3le⟩ := phoneChannel_mono (digitsOf s) entry b2
  have hfold : (comparisonValues entry).foldl (scoreStep (upStr s) (max (upStr s).length 1)) none =
      some b2 := by
    rw [hcv]
    simp only [List.foldl_cons, hb1]
    exact hb2
  have hb3small : b3 ≤ mkRat 1 20 := hb3le.trans (hb2le.trans hb1le)
  have hclamp : min (max b3 0) 1 ≤ mkRat 1 20 := by
    have h1 : (mkRat 1 20 : ℚ) = 1 / 20 := by rw [Rat.mkRat_eq_div]; norm_num
    have : max b3 0 ≤ mkRat 1 20 := by
      rw [h1] at hb3small ⊢
      exact max_le hb3small (by norm_num)
    exact (min_le_left _ _).trans this
  have hscore : computeCandidateScore (upStr s) (digitsOf s) entry =
      oneMinus (min (max b3 0) 1) := by
    unfold computeCandidateScore
    rw [if_neg (by exact fun h => hterm h.1)]
    simp only [hfold, hb3]
  rw [hscore, oneMinus_eq]
  have h1 : (mkRat 1 20 : ℚ) = 1 / 20 := by rw [Rat.mkRat_eq_div]; norm_num
  rw [h1] at hclamp
  linarith

/-- C8, counterexample to the claim as stated: the empty uppercased plate is
    (vacuously) contained in the uppercased term `"ABCD"`, yet the scorer
    returns `0 < 0.95` — the containment clamp only applies to the plate when
    the plate is a non-empty comparison string. -/
theorem C8_counterexample :
    (upStr (Vehicle.mk 1 1 [] (codes "QQQQ") [] 0).plateNumber <:+: upStr (codes "ABCD")) ∧
    computeCandidateScore (upStr (codes "ABCD")) (digitsOf (codes "ABCD"))
      ⟨Vehicle.mk 1 1 [] (codes "QQQQ") [] 0, none⟩ < (95 : ℚ) / 100 := by
  constructor
  · exact List.nil_infix
  · have h : computeCandidateScore (upStr (codes "ABCD")) (digitsOf (codes "ABCD"))
        ⟨Vehicle.mk 1 1 [] (codes "QQQQ") [] 0, none⟩ = 0 := by decide
    rw [h]
    norm_num

/-- C8 (amended): for every candidate with a non-empty plate and every
    non-empty term, if the uppercased plate contains the uppercased term as a
    substring or vice versa, the scorer returns a score ≥ 0.95 (the best
    distance is clamped to at most 0.05). -/
theorem C8_containment_bonus (s : Str) (entry : VehicleWithCustomer)
    (hs : s ≠ []) (hp : entry.vehicle.plateNumber ≠ [])
    (hc : upStr entry.vehicle.plateNumber <:+: upStr s ∨
      upStr s <:+: upStr entry.vehicle.plateNumber) :
    (95 : ℚ) / 100 ≤ computeCandidateScore (upStr s) (digitsOf s) entry :=
  computeCandidateScore_ge_of_contained s entry hs hp hc

/-- C8 witness: scoring plate `"ABC1234"` against the contained term
    `"BC123"` yields a score ≥ 0.95. -/
theorem C8_witness :
    (95 : ℚ) / 100 ≤ computeCandidateScore (upStr (codes "BC123")) (digitsOf (codes "BC123"))
      ⟨Vehicle.mk 1 1 (codes "ABC1234") (codes "M") [] 0, none⟩ :=
  C8_containment_bonus (codes "BC123") _ (by decide) (by decide) (by decide)

/-! ## Claim C10: correctness of the Levenshtein implementation -/

theorem levCost_comm (a b : Nat) : levCost a b = levCost b a := by
  unfold levCost
  by_cases h : a = b
  · rw [if_pos h, if_pos h.symm]
  · rw [if_neg h, if_neg (fun hb => h hb.symm)]

theorem levSpec_nil_left (v : Str) : levSpec [] v = v.length := by
  simp [levSpec]

theorem levSpec_nil_right (u : Str) : levSpec u [] = u.length := by
  cases u <;> simp [levSpec]

theorem levSpec_single (x : Nat) :
    ∀ w : Str, levSpec [x] w = if x ∈ w then w.length - 1 else max w.length 1 := by
  intro w
  induction w with
  | nil => simp [levSpec_nil_right]
  | cons c w2 ih =>
    have hunf : levSpec [x] (c :: w2) =
        min ((c :: w2).length + 1) (min (levSpec [x] w2 + 1) (w2.length + levCost x c)) := by
      simp [levSpec, levSpec_nil_left]
    by_cases hxc : x = c
    · subst hxc
      rw [hunf, ih, if_pos (List.mem_cons_self x w2)]
      have hcost : levCost x x = 0 := by simp [levCost]
      rw [hcost]
      by_cases hxw : x ∈ w2
      · rw [if_pos hxw]
        simp only [List.length_cons]
        omega
      · rw [if_neg hxw]
        simp only [List.length_cons]
        omega
    · rw [hunf, ih]
      have hcost : levCost x c = 1 := by simp [levCost, hxc]
      rw [hcost]
      have hmem : (x ∈ c :: w2) ↔ (x ∈ w2) := by simp [List.mem_cons, hxc]
      by_cases hxw : x ∈ w2
      · rw [if_pos hxw, if_pos (hmem.mpr hxw)]
        have hlen := List.length_pos.mpr (List.ne_nil_of_mem hxw)
        simp only [List.length_cons]
        omega
      · rw [if_neg hxw, if_neg (fun h => hxw (hmem.mp h))]
        simp only [List.length_cons]
        omega

theorem levSpec_symm (u v : Str) : levSpec u v = levSpec v u := by
  match u, v with
  | [], v => rw [levSpec_nil_left, levSpec_nil_right]
  | a :: u2, [] => rw [levSpec_nil_left, levSpec_nil_right]
  | a :: u2, b :: v2 =>
    have IH1 := levSpec_symm u2 (b :: v2)
    have IH2 := levSpec_symm (a :: u2) v2
    have IH3 := levSpec_symm u2 v2
    simp only [levSpec]
    rw [IH1, IH2, IH3, levCost_comm]
    exact min_left_comm _ _ _
termination_by u.length + v.length
decreasing_by all_goals simp_arith

theorem levSpec_single_right (y : Nat) (w : Str) :
    levSpec w [y] = if y ∈ w then w.length - 1 else max w.length 1 := by
  rw [levSpec_symm, levSpec_single]

theorem levSpec_cons_cons (x y : Nat) (xs ys : Str) :
    levSpec (x :: xs) (y :: ys) =
      min (levSpec xs (y :: ys) + 1) (min (levSpec (x :: xs) ys + 1) (levSpec xs ys + levCost x y)) := by
  simp [levSpec]

theorem min9_perm (t1 t2 t3 t4 t5 t6 t7 t8 t9 : Nat) :
    min t1 (min t2 (min t3 (min t4 (min t5 (min t6 (min t7 (min t8 t9))))))) =
    min t1 (min t4 (min t7 (min t2 (min t5 (min t8 (min t3 (min t6 t9))))))) := by
  ac_rfl

theorem min_grid (A B C D E F G H P c1 c2 : Nat) :
    min (min (A+1) (min (B+1) (C+c1)) + 1)
      (min (min (D+1) (min (E+1) (F+c1)) + 1)
           (min (G+1) (min (H+1) (P+c1)) + c2)) =
    min (min (A+1) (min (D+1) (G+c2)) + 1)
      (min (min (B+1) (min (E+1) (H+c2)) + 1)
           (min (C+1) (min (F+1) (P+c2)) + c1)) := by
  simp only [← min_add_add_right]
  rw [show G+1+c2 = G+c2+1 from by omega, show H+1+c2 = H+c2+1 from by omega,
    show P+c1+c2 = P+c2+c1 from by omega, show C+c1+1 = C+1+c1 from by omega,
    show F+c1+1 = F+1+c1 from by omega]
  simp only [min_assoc]
  exact min9_perm (A+1+1) (B+1+1) (C+1+c1) (D+1+1) (E+1+1) (F+1+c1) (G+c2+1) (H+c2+1) (P+c2+c1)

theorem levSpec_snoc_snoc (u v : Str) (x y : Nat) :
    levSpec (u ++ [x]) (v ++ [y]) =
      min (levSpec u (v ++ [y]) + 1)
        (min (levSpec (u ++ [x]) v + 1) (levSpec u v + levCost x y)) := by
  match u, v with
  | [], v =>
    rw [List.nil_append, levSpec_single, levSpec_single, levSpec_nil_left, levSpec_nil_left]
    have hmem : (x ∈ v ++ [y]) ↔ (x ∈ v ∨ x = y) := by simp
    by_cases hxy : x = y
    · rw [if_pos (hmem.mpr (Or.inr hxy))]
      have hcost : levCost x y = 0 := by simp [levCost, hxy]
      rw [hcost]
      by_cases hxv : x ∈ v
      · rw [if_pos hxv]
        have hlen := List.length_pos.mpr (List.ne_nil_of_mem hxv)
        simp only [List.length_append, List.length_singleton]
        omega
      · rw [if_neg hxv]
        simp only [List.length_append, List.length_singleton]
        omega
    · have hcost : levCost x y = 1 := by simp [levCost, hxy]
      rw [hcost]
      by_cases hxv : x ∈ v
      · rw [if_pos (hmem.mpr (Or.inl hxv)), if_pos hxv]
        have hlen := List.length_pos.mpr (List.ne_nil_of_mem hxv)
        simp only [List.length_append, List.length_singleton]
        omega
      · rw [if_neg (fun h => (hmem.mp h).elim hxv hxy), if_neg hxv]
        simp only [List.length_append, List.length_singleton]
        omega
  | a :: u2, [] =>
    rw [List.nil_append, levSpec_single_right, levSpec_single_right, levSpec_nil_right,
      levSpec_nil_right]
    have hmem : (y ∈ (a :: u2) ++ [x]) ↔ (y ∈ a :: u2 ∨ y = x) := by
      simp [or_assoc]
    by_cases hyx : y = x
    · rw [if_pos (hmem.mpr (Or.inr hyx))]
      have hcost : levCost x y = 0 := by simp [levCost, hyx.symm]
      rw [hcost]
      by_cases hyu : y ∈ a :: u2
      · rw [if_pos hyu]
        simp only [List.length_append, List.length_singleton, List.length_cons, List.length_nil]
        omega
      · rw [if_neg hyu]
        simp only [List.length_append, List.length_singleton, List.length_cons, List.length_nil]
        omega
    · have hcost : levCost x y = 1 := by
        unfold levCost
        rw [if_neg (fun h : x = y => hyx h.symm)]
      rw [hcost]
      by_cases hyu : y ∈ a :: u2
      · rw [if_pos (hmem.mpr (Or.inl hyu)), if_pos hyu]
        simp only [List.length_append, List.length_singleton, List.length_cons, List.length_nil]
        omega
      · rw [if_neg (fun h => (hmem.mp h).elim hyu hyx), if_neg hyu]
        simp only [List.length_append, List.length_singleton, List.length_cons, List.length_nil]
        omega
  | a :: u2, b :: v2 =>
    have IH1 := levSpec_snoc_snoc u2 (b :: v2) x y
    have IH2 := levSpec_snoc_snoc (a :: u2) v2 x y
    have IH3 := levSpec_snoc_snoc u2 v2 x y
    simp only [List.cons_append] at IH1 IH2 IH3 ⊢
    rw [levSpec_cons_cons, levSpec_cons_cons, levSpec_cons_cons, levSpec_cons_cons]
    rw [IH1, IH2, IH3]
    exact min_grid _ _ _ _ _ _ _ _ _ _ _
termination_by u.length + v.length
decreasing_by all_goals simp_arith

theorem rowOf_eq_cons (u f : Str) (w : Str) :
    rowOf u f w = levSpec u f :: (rowOf u f w).tail := by
  cases w <;> rfl

theorem levRowAux_rowOf (u : Str) (x : Nat) :
    ∀ (w front : Str),
      levRowAux x w (rowOf u front w) (levSpec (u ++ [x]) front) =
        (rowOf (u ++ [x]) front w).tail := by
  intro w
  induction w with
  | nil => intro front; rfl
  | cons cb w2 ih =>
    intro front
    have hv : min (levSpec u (front ++ [cb]) + 1)
        (min (levSpec (u ++ [x]) front + 1) (levSpec u front + levCost x cb)) =
        levSpec (u ++ [x]) (front ++ [cb]) :=
      (levSpec_snoc_snoc u front x cb).symm
    calc levRowAux x (cb :: w2) (rowOf u front (cb :: w2)) (levSpec (u ++ [x]) front)
        = levRowAux x (cb :: w2)
            (levSpec u front :: levSpec u (front ++ [cb]) :: (rowOf u (front ++ [cb]) w2).tail)
            (levSpec (u ++ [x]) front) := by
          rw [rowOf, ← rowOf_eq_cons]
      _ = levSpec (u ++ [x]) (front ++ [cb]) ::
            levRowAux x w2 (levSpec u (front ++ [cb]) :: (rowOf u (front ++ [cb]) w2).tail)
              (levSpec (u ++ [x]) (front ++ [cb])) := by
          rw [levRowAux, hv]
      _ = (rowOf (u ++ [x]) front (cb :: w2)).tail := by
          rw [← rowOf_eq_cons, ih (front ++ [cb]), rowOf, List.tail_cons]
          exact (rowOf_eq_cons _ _ _).symm

theorem levRow_rowOf (b : Str) (u : Str) (ca : Nat) :
    levRow ca b (rowOf u [] b) (u.length + 1) = rowOf (u ++ [ca]) [] b := by
  have hlen : u.length + 1 = levSpec (u ++ [ca]) [] := by
    rw [levSpec_nil_right, List.length_append, List.length_singleton]
  rw [levRow, hlen, levRowAux_rowOf u ca b []]
  exact (rowOf_eq_cons _ _ _).symm

theorem levRowsGo_rowOf (b : Str) :
    ∀ (suf u : Str), levRowsGo b suf (rowOf u [] b) u.length = rowOf (u ++ suf) [] b := by
  intro suf
  induction suf with
  | nil => intro u; simp [levRowsGo]
  | cons ca as ih =>
    intro u
    rw [levRowsGo, levRow_rowOf, show u.length + 1 = (u ++ [ca]).length from by simp,
      ih (u ++ [ca])]
    simp

theorem rowOf_nil (w : Str) : ∀ front : Str,
    rowOf [] front w = (List.range (w.length + 1)).map (fun j => front.length + j) := by
  induction w with
  | nil =>
    intro front
    simp [rowOf, levSpec_nil_left, show List.range 1 = [0] from rfl]
  | cons c w2 ih =>
    intro front
    rw [rowOf, ih (front ++ [c]), levSpec_nil_left]
    have h1 : (front ++ [c]).length = front.length + 1 := by simp
    have h2 : (c :: w2).length + 1 = w2.length + 1 + 1 := by simp
    rw [h1, h2,
      show List.range (w2.length + 1 + 1) = 0 :: (List.range (w2.length + 1)).map Nat.succ from
        List.range_succ_eq_map _,
      List.map_cons, List.map_map]
    congr 1
    exact List.map_congr_left (fun a ha => by simp only [Function.comp_apply]; omega)

theorem levRows_eq (a b : Str) : levRows a b = rowOf a [] b := by
  have h0 : List.range (b.length + 1) = rowOf [] [] b := by
    rw [rowOf_nil]
    simp
  rw [levRows, h0]
  have := levRowsGo_rowOf b a []
  simpa using this

theorem rowOf_getD (u : Str) : ∀ (w front : Str),
    (rowOf u front w).getD w.length 0 = levSpec u (front ++ w) := by
  intro w
  induction w with
  | nil => intro front; simp [rowOf]
  | cons c w2 ih =>
    intro front
    rw [rowOf]
    simp only [List.length_cons, List.getD_cons_succ]
    rw [ih (front ++ [c])]
    simp

theorem levSpec_self (a : Str) : levSpec a a = 0 := by
  induction a with
  | nil => simp [levSpec_nil_left]
  | cons x xs ih =>
    rw [levSpec_cons_cons]
    have hc : levCost x x = 0 := by simp [levCost]
    omega

theorem levenshteinDistance_eq_levSpec (a b : Str) : levenshteinDistance a b = levSpec a b := by
  unfold levenshteinDistance
  by_cases hab : a = b
  · rw [if_pos hab, hab, levSpec_self]
  · rw [if_neg hab]
    by_cases ha : a.length = 0
    · rw [if_pos ha, List.length_eq_zero.mp ha, levSpec_nil_left]
    · rw [if_neg ha]
      by_cases hb : b.length = 0
      · rw [if_pos hb, List.length_eq_zero.mp hb, levSpec_nil_right]
      · rw [if_neg hb, levRows_eq, rowOf_getD, List.nil_append]

theorem levSpec_eq_zero_iff (u v : Str) : levSpec u v = 0 ↔ u = v := by
  match u, v with
  | [], v => simp [levSpec_nil_left, eq_comm, List.length_eq_zero]
  | a :: u2, [] => simp [levSpec_nil_right]
  | a :: u2, b :: v2 =>
    have ih := levSpec_eq_zero_iff u2 v2
    rw [levSpec_cons_cons]
    constructor
    · intro h
      have hc : levCost a b = 0 := by omega
      have hl : levSpec u2 v2 = 0 := by omega
      have hab : a = b := by
        by_contra hne
        simp [levCost, hne] at hc
      rw [hab, ih.mp hl]
    · intro h
      injection h with h1 h2
      have hc : levCost a b = 0 := by simp [levCost, h1]
      have hl : levSpec u2 v2 = 0 := by rw [h2]; exact levSpec_self v2
      omega
termination_by u.length + v.length
decreasing_by all_goals simp_arith

theorem levenshtein_default_nil_left (v : Str) :
    levenshtein Levenshtein.defaultCost ([] : Str) v = v.length := by
  induction v with
  | nil => simp
  | cons y ys ih => simp [ih, Nat.add_comm]

theorem levenshtein_default_nil_right (u : Str) :
    levenshtein Levenshtein.defaultCost u ([] : Str) = u.length := by
  induction u with
  | nil => simp
  | cons x xs ih => simp [ih, Nat.add_comm]

theorem levSpec_eq_levenshtein (u v : Str) :
    levSpec u v = levenshtein Levenshtein.defaultCost u v := by
  match u, v with
  | [], v => rw [levSpec_nil_left, levenshtein_default_nil_left]
  | a :: u2, [] => rw [levSpec_nil_right, levenshtein_default_nil_right]
  | a :: u2, b :: v2 =>
    have IH1 := levSpec_eq_levenshtein u2 (b :: v2)
    have IH2 := levSpec_eq_levenshtein (a :: u2) v2
    have IH3 := levSpec_eq_levenshtein u2 v2
    rw [levSpec_cons_cons, IH1, IH2, IH3, levenshtein_cons_cons]
    simp only [Levenshtein.defaultCost_delete, Levenshtein.defaultCost_insert,
      Levenshtein.defaultCost_substitute, levCost]
    by_cases hab : a = b <;> simp [hab] <;> omega
termination_by u.length + v.length
decreasing_by all_goals simp_arith

/-- C10: the implemented `levenshteinDistance` equals the standard Levenshtein
    edit distance (Mathlib's `levenshtein` with unit costs, equivalently the
    classical recurrence `levSpec`); in particular it is `0` exactly on equal
    strings and is symmetric in its arguments. -/
theorem C10_levenshteinDistance_correct (a b : Str) :
    levenshteinDistance a b = levenshtein Levenshtein.defaultCost a b ∧
    (levenshteinDistance a b = 0 ↔ a = b) ∧
    levenshteinDistance a b = levenshteinDistance b a := by
  refine ⟨?_, ?_, ?_⟩
  · rw [levenshteinDistance_eq_levSpec, levSpec_eq_levenshtein]
  · rw [levenshteinDistance_eq_levSpec, levSpec_eq_zero_iff]
  · rw [levenshteinDistance_eq_levSpec, levenshteinDistance_eq_levSpec, levSpec_symm]

/-! ## Claim C9: LIKE-pattern escaping -/

theorem likeMatch_nil_pattern (fold : Nat → Nat) (s : Str) :
    likeMatch fold [] s = s.isEmpty := by
  rw [likeMatch.eq_def]

theorem likeMatch_pct (fold : Nat → Nat) (ps s : Str) :
    likeMatch fold (37 :: ps) s = s.tails.any (fun t => likeMatch fold ps t) := by
  rw [likeMatch.eq_def]
  simp

theorem likeMatch_esc_nil (fold : Nat → Nat) (c : Nat) (ps2 : Str) :
    likeMatch fold (92 :: c :: ps2) [] = false := by
  rw [likeMatch.eq_def]
  simp

theorem likeMatch_esc_cons (fold : Nat → Nat) (c : Nat) (ps2 : Str) (x : Nat) (s2 : Str) :
    likeMatch fold (92 :: c :: ps2) (x :: s2) =
      (decide (fold x = fold c) && likeMatch fold ps2 s2) := by
  rw [likeMatch.eq_def]
  simp

theorem likeMatch_lit_nil (fold : Nat → Nat) (p : Nat) (ps : Str)
    (h37 : p ≠ 37) (h95 : p ≠ 95) (h92 : p ≠ 92) :
    likeMatch fold (p :: ps) [] = false := by
  rw [likeMatch.eq_def]
  simp [h37, h95, h92]

theorem likeMatch_lit_cons (fold : Nat → Nat) (p : Nat) (ps : Str) (x : Nat) (s2 : Str)
    (h37 : p ≠ 37) (h95 : p ≠ 95) (h92 : p ≠ 92) :
    likeMatch fold (p :: ps) (x :: s2) =
      (decide (fold x = fold p) && likeMatch fold ps s2) := by
  rw [likeMatch.eq_def]
  simp [h37, h95, h92]

theorem likeMatch_pct_iff (fold : Nat → Nat) (ps s : Str) :
    likeMatch fold (37 :: ps) s = true ↔
      ∃ s1 s2, s = s1 ++ s2 ∧ likeMatch fold ps s2 = true := by
  rw [likeMatch_pct, List.any_eq_true]
  constructor
  · rintro ⟨t, ht, h⟩
    obtain ⟨s1, hs1⟩ := (List.mem_tails _ _).mp ht
    exact ⟨s1, t, hs1.symm, h⟩
  · rintro ⟨s1, s2, rfl, h⟩
    exact ⟨s2, (List.mem_tails _ _).mpr ⟨s1, rfl⟩, h⟩

theorem likeMatch_pct_end (fold : Nat → Nat) (s : Str) : likeMatch fold [37] s = true := by
  rw [likeMatch_pct, List.any_eq_true]
  refine ⟨[], (List.mem_tails _ _).mpr List.nil_suffix, ?_⟩
  rw [likeMatch_nil_pattern]
  rfl

theorem likeMatch_escape_append (fold : Nat → Nat) :
    ∀ core : Str, 92 ∉ core → ∀ (ps s : Str),
      (likeMatch fold (escapeLikePattern core ++ ps) s = true ↔
        ∃ pre rest, s = pre ++ rest ∧ pre.map fold = core.map fold ∧
          likeMatch fold ps rest = true) := by
  intro core
  induction core with
  | nil =>
    intro _ ps s
    rw [escapeLikePattern, List.nil_append]
    constructor
    · intro h
      exact ⟨[], s, rfl, rfl, h⟩
    · rintro ⟨pre, rest, he, hm, h⟩
      have hpre : pre = [] := List.map_eq_nil_iff.mp hm
      rw [hpre, List.nil_append] at he
      rw [he]
      exact h
  | cons c core' ih =>
    intro h92 ps s
    have h92' : 92 ∉ core' := fun h => h92 (List.mem_cons_of_mem _ h)
    have hc92 : c ≠ 92 := fun h => h92 (h ▸ List.mem_cons_self _ _)
    have ihs := ih h92' ps
    by_cases hmeta : c = 37 ∨ c = 95
    · have hesc : escapeLikePattern (c :: core') ++ ps =
          92 :: c :: (escapeLikePattern core' ++ ps) := by
        rw [escapeLikePattern, if_pos hmeta]
        rfl
      rw [hesc]
      cases s with
      | nil =>
        rw [likeMatch_esc_nil]
        simp only [Bool.false_eq_true, false_iff]
        rintro ⟨pre, rest, he, hm, h⟩
        obtain ⟨h1, h2⟩ := List.append_eq_nil.mp he.symm
        rw [h1] at hm
        exact (List.cons_ne_nil _ _) hm.symm
      | cons x s2 =>
        rw [likeMatch_esc_cons, Bool.and_eq_true, decide_eq_true_eq, ihs s2]
        constructor
        · rintro ⟨hfx, pre', rest, he, hm, h⟩
          exact ⟨x :: pre', rest, by rw [he]; rfl, by simp [hm, hfx], h⟩
        · rintro ⟨pre, rest, he, hm, h⟩
          cases pre with
          | nil => exact absurd hm.symm (List.cons_ne_nil _ _)
          | cons y pre' =>
            have hxy : x = y := by injection he
            have hs : s2 = pre' ++ rest := by injection he
            have hfy : fold y = fold c := by injection hm
            have hm' : pre'.map fold = core'.map fold := by injection hm
            exact ⟨by rw [hxy]; exact hfy, pre', rest, hs, hm', h⟩
    · have h37 : c ≠ 37 := fun h => hmeta (Or.inl h)
      have h95 : c ≠ 95 := fun h => hmeta (Or.inr h)
      have hesc : escapeLikePattern (c :: core') ++ ps =
          c :: (escapeLikePattern core' ++ ps) := by
        rw [escapeLikePattern, if_neg hmeta]
        rfl
      rw [hesc]
      cases s with
      | nil =>
        rw [likeMatch_lit_nil fold c _ h37 h95 hc92]
        simp only [Bool.false_eq_true, false_iff]
        rintro ⟨pre, rest, he, hm, h⟩
        obtain ⟨h1, h2⟩ := List.append_eq_nil.mp he.symm
        rw [h1] at hm
        exact (List.cons_ne_nil _ _) hm.symm
      | cons x s2 =>
        rw [likeMatch_lit_cons fold c _ x s2 h37 h95 hc92, Bool.and_eq_true,
          decide_eq_true_eq, ihs s2]
        constructor
        · rintro ⟨hfx, pre', rest, he, hm, h⟩
          exact ⟨x :: pre', rest, by rw [he]; rfl, by simp [hm, hfx], h⟩
        · rintro ⟨pre, rest, he, hm, h⟩
          cases pre with
          | nil => exact absurd hm.symm (List.cons_ne_nil _ _)
          | cons y pre' =>
            have hxy : x = y := by injection he
            have hs : s2 = pre' ++ rest := by injection he
            have hfy : fold y = fold c := by injection hm
            have hm' : pre'.map fold = core'.map fold := by injection hm
            exact ⟨by rw [hxy]; exact hfy, pre', rest, hs, hm', h⟩

theorem likeMatch_wrap_iff (fold : Nat → Nat) (core : Str) (h92 : 92 ∉ core) (s : Str) :
    likeMatch fold (wrapPct (escapeLikePattern core)) s = true ↔
      core.map fold <:+: s.map fold := by
  have hshape : wrapPct (escapeLikePattern core) =
      37 :: (escapeLikePattern core ++ [37]) := rfl
  rw [hshape, likeMatch_pct_iff]
  constructor
  · rintro ⟨s1, s2, he, h⟩
    obtain ⟨pre, rest, he2, hm, _⟩ := (likeMatch_escape_append fold core h92 [37] s2).mp h
    refine ⟨s1.map fold, rest.map fold, ?_⟩
    rw [he, he2, ← hm]
    simp
  · rintro ⟨a, b, hab⟩
    rw [List.append_assoc] at hab
    obtain ⟨s1, s23, hs, ha, h23⟩ := List.append_eq_map_iff.mp hab
    obtain ⟨pre, s2, hs2, hpre, hrest⟩ := List.append_eq_map_iff.mp h23.symm
    refine ⟨s1, pre ++ s2, by rw [hs, hs2], ?_⟩
    refine (likeMatch_escape_append fold core h92 [37] (pre ++ s2)).mpr
      ⟨pre, s2, rfl, by rw [hpre], likeMatch_pct_end fold s2⟩

theorem mem_addUnique {acc : List Str} {z x : Str} (h : x ∈ addUnique acc z) :
    x ∈ acc ∨ x = z := by
  unfold addUnique at h
  by_cases hz : z ∈ acc
  · rw [if_pos hz] at h
    exact Or.inl h
  · rw [if_neg hz] at h
    rcases List.mem_append.mp h with h1 | h1
    · exact Or.inl h1
    · exact Or.inr (List.mem_singleton.mp h1)

theorem mem_foldl_addUnique (g : Str → Str) (P : Str → Prop) [DecidablePred P] :
    ∀ (l : List Str) (acc : List Str) (x : Str),
      x ∈ l.foldl (fun acc2 y => if P y then addUnique acc2 (g y) else acc2) acc →
      x ∈ acc ∨ ∃ y ∈ l, x = g y := by
  intro l
  induction l with
  | nil =>
    intro acc x h
    exact Or.inl h
  | cons y l2 ih =>
    intro acc x h
    simp only [List.foldl_cons] at h
    rcases ih _ x h with hacc | ⟨y2, hy2, hx⟩
    · by_cases hP : P y
      · rw [if_pos hP] at hacc
        rcases mem_addUnique hacc with h1 | h2
        · exact Or.inl h1
        · exact Or.inr ⟨y, List.mem_cons_self _ _, h2⟩
      · rw [if_neg hP] at hacc
        exact Or.inl hacc
    · exact Or.inr ⟨y2, List.mem_cons_of_mem _ hy2, hx⟩

theorem trimStr_subset (s : Str) : ∀ c ∈ trimStr s, c ∈ s := by
  intro c hc
  unfold trimStr at hc
  rw [List.mem_reverse] at hc
  have h1 := (List.dropWhile_sublist _).subset hc
  rw [List.mem_reverse] at h1
  exact (List.dropWhile_sublist _).subset h1

theorem deletionVariants_subset (s : Str) : ∀ v ∈ deletionVariants s, ∀ c ∈ v, c ∈ s := by
  intro v hv c hc
  unfold deletionVariants at hv
  simp only [List.mem_map, List.mem_range] at hv
  obtain ⟨i, _, rfl⟩ := hv
  rcases List.mem_append.mp hc with h | h
  · exact (List.take_sublist _ _).subset h
  · exact (List.drop_sublist _ _).subset h

theorem wsTokensGo_subset :
    ∀ (s cur : Str), ∀ tok ∈ wsTokensGo cur s, ∀ c ∈ tok, c ∈ cur ∨ c ∈ s := by
  intro s
  induction s with
  | nil =>
    intro cur tok htok c hc
    rw [wsTokensGo] at htok
    by_cases hcur : cur = []
    · rw [if_pos hcur] at htok
      exact absurd htok (List.not_mem_nil _)
    · rw [if_neg hcur] at htok
      rcases List.mem_singleton.mp htok with rfl
      exact Or.inl (List.mem_reverse.mp hc)
  | cons d rest ih =>
    intro cur tok htok c hc
    have htok2 : tok ∈ (if isWSCode d then
        (if cur = [] then wsTokensGo [] rest else cur.reverse :: wsTokensGo [] rest)
        else wsTokensGo (d :: cur) rest) := htok
    clear htok
    by_cases hd : isWSCode d
    · rw [if_pos hd] at htok2
      by_cases hcur : cur = []
      · rw [if_pos hcur] at htok2
        rcases ih [] tok htok2 c hc with h | h
        · exact absurd h (List.not_mem_nil _)
        · exact Or.inr (List.mem_cons_of_mem _ h)
      · rw [if_neg hcur] at htok2
        rcases List.mem_cons.mp htok2 with rfl | htok3
        · exact Or.inl (List.mem_reverse.mp hc)
        · rcases ih [] tok htok3 c hc with h | h
          · exact absurd h (List.not_mem_nil _)
          · exact Or.inr (List.mem_cons_of_mem _ h)
    · rw [if_neg hd] at htok2
      rcases ih (d :: cur) tok htok2 c hc with h | h
      · rcases List.mem_cons.mp h with rfl | h2
        · exact Or.inr (List.mem_cons_self _ _)
        · exact Or.inl h2
      · exact Or.inr (List.mem_cons_of_mem _ h)

theorem wsTokens_subset (s : Str) : ∀ tok ∈ wsTokens s, ∀ c ∈ tok, c ∈ s := by
  intro tok htok c hc
  rcases wsTokensGo_subset s [] tok htok c hc with h | h
  · exact absurd h (List.not_mem_nil _)
  · exact h

theorem buildFuzzyPatterns_shape (t : Str) :
    ∀ p ∈ buildFuzzyPatterns t, ∃ core : Str,
      (∀ c ∈ core, c ∈ trimStr t) ∧ p = wrapPct (escapeLikePattern core) := by
  intro p hp
  simp only [buildFuzzyPatterns] at hp
  by_cases ht : trimStr t = []
  · rw [if_pos ht] at hp
    exact absurd hp (List.not_mem_nil _)
  · rw [if_neg ht] at hp
    have hbase : ∀ x : Str, x ∈ addUnique [] (wrapPct (escapeLikePattern (trimStr t))) →
        ∃ core : Str, (∀ c ∈ core, c ∈ trimStr t) ∧ x = wrapPct (escapeLikePattern core) := by
      intro x hx
      rcases mem_addUnique hx with h0 | rfl
      · exact absurd h0 (List.not_mem_nil _)
      · exact ⟨trimStr t, fun c hc => hc, rfl⟩
    rcases mem_foldl_addUnique _ _ _ _ _ hp with hp2 | ⟨tok, htok, rfl⟩
    · by_cases h4 : 3 + 1 ≤ (trimStr t).length
      · rw [if_pos h4] at hp2
        rcases mem_foldl_addUnique _ _ _ _ _ hp2 with hp3 | ⟨v, hv, rfl⟩
        · exact hbase p hp3
        · exact ⟨v, deletionVariants_subset _ v hv, rfl⟩
      · rw [if_neg h4] at hp2
        exact hbase p hp2
    · exact ⟨tok, wsTokens_subset _ tok htok, rfl⟩

/-- C9 counterexample: for the term `"A\%B"`, which contains a literal `%`
    (and a backslash), the generated pattern `%A\\%B%` is a member of the
    fetcher's patterns, and it ILIKE-matches the string `"A\zB"` even though
    that string does not contain the term — the `%` of the term acts as a
    wildcard because `escapeLikePattern` does not escape backslashes. -/
theorem C9_counterexample :
    wrapPct (escapeLikePattern (codes "A\\%B")) ∈ buildFuzzyPatterns (codes "A\\%B") ∧
    ilikeCond (wrapPct (escapeLikePattern (codes "A\\%B"))) (codes "A\\zB") = true ∧
    ¬ (upStr (codes "A\\%B") <:+: upStr (codes "A\\zB")) := by
  refine ⟨by decide, by decide, by decide⟩

/-- C9 (amended): for every term containing no backslash, every pattern the
    Candidate Fetcher generates from the text of the term is the `%…%`
    wrapping of an escaped fragment of the term, and matches exactly the
    strings containing that fragment (case-insensitively) — in particular
    literal `%` and `_` in the term are matched literally, not as SQL
    pattern operators. -/
theorem C9_escaping (t : Str) (h92 : 92 ∉ t) :
    ∀ p ∈ buildFuzzyPatterns t, ∃ core : Str, 92 ∉ core ∧
      p = wrapPct (escapeLikePattern core) ∧
      ∀ s : Str, ilikeCond p s = true ↔ upStr core <:+: upStr s := by
  intro p hp
  obtain ⟨core, hsub, rfl⟩ := buildFuzzyPatterns_shape t p hp
  have h92c : 92 ∉ core := fun h => h92 (trimStr_subset t _ (hsub _ h))
  exact ⟨core, h92c, rfl, fun s => likeMatch_wrap_iff upCode core h92c s⟩

/-- C9 witness: the primary pattern generated for the metacharacter-bearing
    (but backslash-free) term `"AB%12"`. -/
theorem C9_witness :
    (92 ∉ codes "AB%12") ∧
    (wrapPct (escapeLikePattern (codes "AB%12")) ∈ buildFuzzyPatterns (codes "AB%12")) ∧
    (∃ core : Str, 92 ∉ core ∧
      wrapPct (escapeLikePattern (codes "AB%12")) = wrapPct (escapeLikePattern core) ∧
      ∀ s : Str, ilikeCond (wrapPct (escapeLikePattern (codes "AB%12"))) s = true ↔
        upStr core <:+: upStr s) :=
  ⟨by decide, by decide, C9_escaping (codes "AB%12") (by decide) _ (by decide)⟩

/-! ## Claim C5: the suggestion bound -/

theorem buildSuggestions_length_le (st : Store) (term : Str) (matchVehicleId : Option Nat)
    (seeds : List SuggestionPayload) :
    (buildSuggestions st term matchVehicleId seeds).length ≤ VEHICLE_SUGGESTION_LIMIT := by
  unfold buildSuggestions
  exact List.length_take_le _ _

/-- C5: for every store state and raw query that is accepted, the length of
    the returned suggestions list never exceeds the suggestion limit
    (`VEHICLE_SUGGESTION_LIMIT = 5`; the endpoint exposes no request
    parameter for it). -/
theorem C5_suggestion_bound (st : Store) (q : Str) (r : SearchResult)
    (h : vehicleSearch st q = some r) :
    r.suggestions.length ≤ VEHICLE_SUGGESTION_LIMIT := by
  unfold vehicleSearch at h
  by_cases hq : normWS q = []
  · rw [if_pos hq] at h
    exact absurd h (by simp)
  · rw [if_neg hq] at h
    have hr := (Option.some.injEq _ _).mp h
    rw [← hr]
    exact buildSuggestions_length_le _ _ _ _

/-- C5 witness: a concrete accepted query on a concrete store. -/
theorem C5_witness :
    vehicleSearch (Store.mk [] [] []) (codes "AB12") = some (SearchResult.mk none []) ∧
    (SearchResult.mk none []).suggestions.length ≤ VEHICLE_SUGGESTION_LIMIT :=
  ⟨by decide,
    C5_suggestion_bound (Store.mk [] [] []) (codes "AB12") (SearchResult.mk none [])
      (by decide)⟩

/-! ## Claim C4: self-exclusion of the match from the suggestions -/

theorem insertSeeds_no_match (mid : Option Nat) (seeds : List SuggestionPayload) :
    ∀ x ∈ insertSeeds mid seeds, matchGuard mid x.vehicle.id = false := by
  unfold insertSeeds
  suffices h : ∀ (l : List SuggestionPayload) (acc : List SuggestionPayload),
      (∀ x ∈ acc, matchGuard mid x.vehicle.id = false) →
      ∀ x ∈ l.foldl
        (fun acc s =>
          if matchGuard mid s.vehicle.id then acc
          else if hasId acc s.vehicle.id then acc else acc ++ [s]) acc,
        matchGuard mid x.vehicle.id = false by
    exact h seeds [] (fun x hx => absurd hx (List.not_mem_nil _))
  intro l
  induction l with
  | nil => exact fun acc hacc x hx => hacc x hx
  | cons sd l2 ih =>
    intro acc hacc x hx
    simp only [List.foldl_cons] at hx
    by_cases hg : matchGuard mid sd.vehicle.id
    · rw [if_pos hg] at hx
      exact ih acc hacc x hx
    · rw [if_neg hg] at hx
      by_cases hh : hasId acc sd.vehicle.id
      · rw [if_pos hh] at hx
        exact ih acc hacc x hx
      · rw [if_neg hh] at hx
        refine ih _ ?_ x hx
        intro y hy
        rcases List.mem_append.mp hy with h1 | h1
        · exact hacc y h1
        · rw [List.mem_singleton.mp h1]
          exact Bool.not_eq_true _ ▸ hg

theorem insertCandidates_no_match (mid : Option Nat) (t d : Str) :
    ∀ (l : List VehicleWithCustomer) (acc : List SuggestionPayload),
      (∀ x ∈ acc, matchGuard mid x.vehicle.id = false) →
      ∀ x ∈ insertCandidates mid t d acc l, matchGuard mid x.vehicle.id = false := by
  intro l
  induction l with
  | nil =>
    intro acc hacc x hx
    rw [insertCandidates] at hx
    exact hacc x hx
  | cons cand l2 ih =>
    intro acc hacc x hx
    rw [insertCandidates] at hx
    by_cases hg : matchGuard mid cand.vehicle.id
    · rw [if_pos hg] at hx
      exact ih acc hacc x hx
    · rw [if_neg hg] at hx
      by_cases hh : hasId acc cand.vehicle.id
      · rw [if_pos hh] at hx
        exact ih acc hacc x hx
      · rw [if_neg hh] at hx
        have hacc2 : ∀ y ∈ acc ++
            [⟨cand.vehicle, cand.customer, determineSuggestionReason t d cand.vehicle cand.customer⟩],
            matchGuard mid y.vehicle.id = false := by
          intro y hy
          rcases List.mem_append.mp hy with h1 | h1
          · exact hacc y h1
          · rw [List.mem_singleton.mp h1]
            exact Bool.not_eq_true _ ▸ hg
        by_cases hl : VEHICLE_SUGGESTION_LIMIT ≤ (acc ++
            [(⟨cand.vehicle, cand.customer,
              determineSuggestionReason t d cand.vehicle cand.customer⟩ : SuggestionPayload)]).length
        · rw [if_pos hl] at hx
          exact hacc2 x hx
        · rw [if_neg hl] at hx
          exact ih _ hacc2 x hx

theorem buildSuggestions_no_match (st : Store) (term : Str) (mid : Option Nat)
    (seeds : List SuggestionPayload) :
    ∀ x ∈ buildSuggestions st term mid seeds, matchGuard mid x.vehicle.id = false := by
  intro x hx
  unfold buildSuggestions at hx
  have hx2 := List.take_subset _ _ hx
  exact insertCandidates_no_match mid _ _ _ _ (insertSeeds_no_match mid seeds) x hx2

theorem resolvePrimaryMatch_match_mem (st : Store) (t : Str) (p : LookupPayload)
    (h : (resolvePrimaryMatch st t).1 = some p) : p.vehicle ∈ st.vehicles := by
  simp only [resolvePrimaryMatch] at h
  split at h
  case _ v heq =>
    have hv : v ∈ st.vehicles := by
      split at heq
      · exact List.mem_of_find?_eq_some heq
      · exact absurd heq (by simp)
    injection h with h1
    rw [← h1]
    exact hv
  case _ heq =>
    split at h
    case _ v seeds heq2 =>
      have hv : v ∈ st.vehicles := by
        split at heq2
        · split at heq2
          case _ c heq3 =>
            split at heq2
            case _ v2 heq4 =>
              have h12 : v2 = v := by
                have := congrArg Prod.fst heq2
                simpa using this
              have hmem : v ∈ getVehiclesByCustomer st c.id := by
                rw [heq4, ← h12]
                exact List.mem_singleton_self _
              exact List.mem_of_mem_filter hmem
            case _ =>
              have := congrArg Prod.fst heq2
              simp at this
          case _ heq3 =>
            have := congrArg Prod.fst heq2
            simp at this
        · have := congrArg Prod.fst heq2
          simp at this
      injection h with h1
      rw [← h1]
      exact hv
    case _ seeds heq2 =>
      split at h
      · split at h
        case _ c heq3 =>
          split at h
          case _ v heq4 =>
            have hmem : v ∈ getVehiclesByCustomer st c.id := by
              rw [heq4]
              exact List.mem_singleton_self _
            injection h with h1
            rw [← h1]
            exact List.mem_of_mem_filter hmem
          case _ => simp at h
        case _ => simp at h
        case _ => simp at h
      · simp at h

/-- Claim C4: for every input term and every record store satisfying the
    data-model invariants, the vehicle returned as the primary match never
    simultaneously appears (by vehicle id) in the suggestions list. -/
theorem C4_self_exclusion (st : Store) (raw : Str) (r : SearchResult) (p : LookupPayload)
    (hwf : WFStore st) (hr : vehicleSearch st raw = some r) (hm : r.matchResult = some p) :
    ∀ s ∈ r.suggestions, s.vehicle.id ≠ p.vehicle.id := by
  intro s hs
  simp only [vehicleSearch] at hr
  split at hr
  · exact absurd hr (by simp)
  · injection hr with hr1
    subst hr1
    simp only at hm hs
    generalize hrp : resolvePrimaryMatch st (normWS raw) = rp at hm hs
    have hguard0 := buildSuggestions_no_match st (normWS raw)
      (Option.map (fun q => q.vehicle.id) rp.1) rp.2
    have hguard := hguard0 s hs
    rw [hm] at hguard
    simp only [Option.map_some, matchGuard] at hguard
    have hpos : 0 < p.vehicle.id :=
      hwf.1 p.vehicle (resolvePrimaryMatch_match_mem st (normWS raw) p (by rw [hrp]; exact hm))
    intro hid
    rw [hid] at hguard
    simp at hguard
    omega

set_option maxRecDepth 4000 in
theorem C4_witness :
    WFStore ⟨[⟨1, codes "9000000", codes "Alice"⟩],
      [⟨1, 1, codes "ABC1", codes "Toyota", codes "Camry", 10⟩,
       ⟨2, 1, codes "ABC12", codes "Toyota", codes "Camry", 5⟩], []⟩ ∧
    vehicleSearch ⟨[⟨1, codes "9000000", codes "Alice"⟩],
      [⟨1, 1, codes "ABC1", codes "Toyota", codes "Camry", 10⟩,
       ⟨2, 1, codes "ABC12", codes "Toyota", codes "Camry", 5⟩], []⟩ (codes "ABC1") =
      some ⟨some ⟨⟨1, 1, codes "ABC1", codes "Toyota", codes "Camry", 10⟩,
          some ⟨1, codes "9000000", codes "Alice"⟩, []⟩,
        [⟨⟨2, 1, codes "ABC12", codes "Toyota", codes "Camry", 5⟩,
          some ⟨1, codes "9000000", codes "Alice"⟩, .plate⟩]⟩ ∧
    ∀ s ∈ [(⟨⟨2, 1, codes "ABC12", codes "Toyota", codes "Camry", 5⟩,
        some ⟨1, codes "9000000", codes "Alice"⟩, .plate⟩ : SuggestionPayload)],
      s.vehicle.id ≠ (⟨⟨1, 1, codes "ABC1", codes "Toyota", codes "Camry", 10⟩,
        some ⟨1, codes "9000000", codes "Alice"⟩, []⟩ : LookupPayload).vehicle.id :=
  ⟨by decide, by decide,
   C4_self_exclusion
     ⟨[⟨1, codes "9000000", codes "Alice"⟩],
      [⟨1, 1, codes "ABC1", codes "Toyota", codes "Camry", 10⟩,
       ⟨2, 1, codes "ABC12", codes "Toyota", codes "Camry", 5⟩], []⟩
     (codes "ABC1")
     ⟨some ⟨⟨1, 1, codes "ABC1", codes "Toyota", codes "Camry", 10⟩,
        some ⟨1, codes "9000000", codes "Alice"⟩, []⟩,
      [⟨⟨2, 1, codes "ABC12", codes "Toyota", codes "Camry", 5⟩,
        some ⟨1, codes "9000000", codes "Alice"⟩, .plate⟩]⟩
     ⟨⟨1, 1, codes "ABC1", codes "Toyota", codes "Camry", 10⟩,
       some ⟨1, codes "9000000", codes "Alice"⟩, []⟩
     (by decide) (by decide) (by decide)⟩

/-! ## Claim C6: exclusivity of the resolver's output shape -/

/-- Claim C6 counterexample: the resolver can return a resolved match together
    with non-empty seed suggestions.  With a customer whose name is the literal
    phone string of another customer owning two vehicles, the phone step leaves
    two seeds attached and the name step then resolves a match. -/
theorem C6_counterexample :
    ((resolvePrimaryMatch
        ⟨[⟨1, codes "555-1234567", codes "Alice"⟩, ⟨2, codes "111-2222", codes "555-1234567"⟩],
         [⟨1, 1, codes "AAA1", codes "Toyota", codes "Camry", 10⟩,
          ⟨2, 1, codes "BBB2", codes "Honda", codes "Civic", 20⟩,
          ⟨3, 2, codes "CCC3", codes "Ford", codes "Focus", 30⟩], []⟩
        (codes "555-1234567")).1.isSome = true) ∧
    ((resolvePrimaryMatch
        ⟨[⟨1, codes "555-1234567", codes "Alice"⟩, ⟨2, codes "111-2222", codes "555-1234567"⟩],
         [⟨1, 1, codes "AAA1", codes "Toyota", codes "Camry", 10⟩,
          ⟨2, 1, codes "BBB2", codes "Honda", codes "Civic", 20⟩,
          ⟨3, 2, codes "CCC3", codes "Ford", codes "Focus", 30⟩], []⟩
        (codes "555-1234567")).2.length = 2) := by
  constructor
  · decide
  · decide

/-- Claim C6 (amended): when the resolver returns a resolved match, any
    accompanying seed suggestions are exactly the phone-tagged seeds left over
    from the phone step; in particular every accompanying seed has reason
    `phone`. -/
theorem C6_resolver_exclusive (st : Store) (t : Str)
    (h : (resolvePrimaryMatch st t).1.isSome = true) :
    ∀ x ∈ (resolvePrimaryMatch st t).2, x.reason = SuggestionReason.phone := by
  intro x hx
  rcases hrp : resolvePrimaryMatch st t with ⟨m, seeds⟩
  rw [hrp] at h hx
  simp only at h hx
  simp only [resolvePrimaryMatch] at hrp
  split at hrp
  case _ v heq =>
    injection hrp with h1 h2
    rw [← h2] at hx
    simp at hx
  case _ heq =>
    split at hrp
    case _ v seeds2 heq2 =>
      injection hrp with h1 h2
      rw [← h2] at hx
      split at heq2
      · split at heq2
        case _ c heq3 =>
          split at heq2
          case _ v2 heq4 =>
            have h2x := congrArg Prod.snd heq2
            simp only at h2x
            rw [← h2x] at hx
            simp at hx
          case _ =>
            have h1x := congrArg Prod.fst heq2
            simp at h1x
        case _ heq3 =>
          have h1x := congrArg Prod.fst heq2
          simp at h1x
      · have h1x := congrArg Prod.fst heq2
        simp at h1x
    case _ seeds2 heq2 =>
      have hphone : ∀ y ∈ seeds2, y.reason = SuggestionReason.phone := by
        intro y hy
        split at heq2
        · split at heq2
          case _ c heq3 =>
            split at heq2
            case _ v2 heq4 =>
              have h1x := congrArg Prod.fst heq2
              simp at h1x
            case _ =>
              have h2x := congrArg Prod.snd heq2
              simp only at h2x
              rw [← h2x] at hy
              simp only [List.mem_map] at hy
              obtain ⟨v3, hv3, hyeq⟩ := hy
              rw [← hyeq]
          case _ heq3 =>
            have h2x := congrArg Prod.snd heq2
            simp only at h2x
            rw [← h2x] at hy
            simp at hy
        · have h2x := congrArg Prod.snd heq2
          simp only at h2x
          rw [← h2x] at hy
          simp at hy
      split at hrp
      · split at hrp
        case _ c heq3 =>
          split at hrp
          case _ v2 heq4 =>
            have h2x := congrArg Prod.snd hrp
            simp only at h2x
            rw [← h2x] at hx
            exact hphone x hx
          case _ =>
            have h1x := congrArg Prod.fst hrp
            simp only at h1x
            rw [← h1x] at h
            simp at h
        case _ heq3 =>
          have h1x := congrArg Prod.fst hrp
          simp only at h1x
          rw [← h1x] at h
          simp at h
        case _ heq3 =>
          have h1x := congrArg Prod.fst hrp
          simp only at h1x
          rw [← h1x] at h
          simp at h
      · have h1x := congrArg Prod.fst hrp
        simp only at h1x
        rw [← h1x] at h
        simp at h

theorem C6_witness :
    ((resolvePrimaryMatch
        ⟨[⟨1, codes "555-1234568", codes "Bea"⟩, ⟨2, codes "111-3333", codes "555-1234568"⟩],
         [⟨1, 1, codes "AAA2", codes "Toyota", codes "Camry", 10⟩,
          ⟨2, 1, codes "BBB3", codes "Honda", codes "Civic", 20⟩,
          ⟨3, 2, codes "CCC4", codes "Ford", codes "Focus", 30⟩], []⟩
        (codes "555-1234568")).1.isSome = true) ∧
    ∀ x ∈ (resolvePrimaryMatch
        ⟨[⟨1, codes "555-1234568", codes "Bea"⟩, ⟨2, codes "111-3333", codes "555-1234568"⟩],
         [⟨1, 1, codes "AAA2", codes "Toyota", codes "Camry", 10⟩,
          ⟨2, 1, codes "BBB3", codes "Honda", codes "Civic", 20⟩,
          ⟨3, 2, codes "CCC4", codes "Ford", codes "Focus", 30⟩], []⟩
        (codes "555-1234568")).2, x.reason = SuggestionReason.phone :=
  ⟨by decide,
   C6_resolver_exclusive
     ⟨[⟨1, codes "555-1234568", codes "Bea"⟩, ⟨2, codes "111-3333", codes "555-1234568"⟩],
      [⟨1, 1, codes "AAA2", codes "Toyota", codes "Camry", 10⟩,
       ⟨2, 1, codes "BBB3", codes "Honda", codes "Civic", 20⟩,
       ⟨3, 2, codes "CCC4", codes "Ford", codes "Focus", 30⟩], []⟩
     (codes "555-1234568") (by decide)⟩

/-! ## Claim C7: digit-format invariance of phone search -/

theorem digitsOf_idem (s : Str) : digitsOf (digitsOf s) = digitsOf s := by
  simp [digitsOf, List.filter_filter]

theorem upsertScored_fst_mem (acc : List (VehicleWithCustomer × ℚ)) (r : VehicleWithCustomer)
    (s : ℚ) (e : VehicleWithCustomer × ℚ) (he : e ∈ upsertScored acc r s) :
    e ∈ acc ∨ e.1 = r := by
  unfold upsertScored at he
  split at he
  · rw [List.mem_map] at he
    obtain ⟨a, ha, heq⟩ := he
    split at heq
    · right
      rw [← heq]
    · left
      rw [← heq]
      exact ha
  · rcases List.mem_append.mp he with h1 | h1
    · exact Or.inl h1
    · right
      rw [List.mem_singleton.mp h1]

theorem scoredFold_aux (t d : Str) :
    ∀ (l : List VehicleWithCustomer) (acc : List (VehicleWithCustomer × ℚ)),
      ∀ e ∈ l.foldl
        (fun acc r => upsertScored acc r (computeCandidateScore t d r)) acc,
        e ∈ acc ∨ e.1 ∈ l := by
  intro l
  induction l with
  | nil =>
    intro acc e he
    exact Or.inl he
  | cons r l2 ih =>
    intro acc e he
    simp only [List.foldl_cons] at he
    rcases ih _ e he with h1 | h1
    · rcases upsertScored_fst_mem _ _ _ _ h1 with h2 | h2
      · exact Or.inl h2
      · exact Or.inr (by rw [h2]; exact List.mem_cons_self _ _)
    · exact Or.inr (List.mem_cons_of_mem _ h1)

theorem searchVehicleCandidates_vehicle_mem (st : Store) (t : Str) (k : Nat) :
    ∀ x ∈ searchVehicleCandidates st t k, x.vehicle ∈ st.vehicles := by
  intro x hx
  simp only [searchVehicleCandidates] at hx
  split at hx
  · simp at hx
  · simp only [List.mem_map] at hx
    obtain ⟨e, he, hex⟩ := hx
    have he2 := List.take_subset _ _ he
    have he3 := (List.perm_insertionSort candLE _).mem_iff.mp he2
    rw [scoredFold] at he3
    rcases scoredFold_aux _ _ _ _ _ he3 with h1 | h1
    · exact absurd h1 (List.not_mem_nil _)
    · have h2 := List.take_subset _ _ h1
      have h3 := (List.perm_insertionSort byCreatedDesc _).mem_iff.mp h2
      have h4 := List.mem_of_mem_filter h3
      simp only [joinRows, List.mem_map] at h4
      obtain ⟨v, hv, hveq⟩ := h4
      rw [← hex, ← hveq]
      exact hv

theorem insertCandidates_all_skip (mid : Option Nat) (t d : Str) :
    ∀ (l : List VehicleWithCustomer) (acc : List SuggestionPayload),
      (∀ cand ∈ l, matchGuard mid cand.vehicle.id = true) →
      insertCandidates mid t d acc l = acc := by
  intro l
  induction l with
  | nil =>
    intro acc h
    rw [insertCandidates]
  | cons c l2 ih =>
    intro acc h
    rw [insertCandidates]
    rw [if_pos (h c (List.mem_cons_self _ _))]
    exact ih acc (fun x hx => h x (List.mem_cons_of_mem _ hx))

theorem vehicleSearch_unique_phone (st : Store) (c : Customer) (v : Vehicle) (t : Str)
    (hc : st.customers = [c]) (hv : st.vehicles = [v])
    (hfix : normWS t = t) (ht : ¬ t = [])
    (hplate : isLikelyPlate t = false)
    (hdig : 7 ≤ (digitsOf t).length)
    (hphone : digitsOf c.phone = digitsOf t)
    (hown : v.customerId = c.id) (hid : ¬ v.id = 0) :
    vehicleSearch st t = some ⟨some (buildLookupPayload st v), []⟩ := by
  have hphoneLookup : getCustomerByNormalizedPhone st (digitsOf t) = some c := by
    simp only [getCustomerByNormalizedPhone, digitsOf_idem]
    rw [if_neg (by intro h0; rw [h0] at hdig; simp at hdig), hc]
    simp [List.find?, hphone]
  have hvehicles : getVehiclesByCustomer st c.id = [v] := by
    simp only [getVehiclesByCustomer]
    rw [hv]
    simp [hown]
  have hrp : resolvePrimaryMatch st t = (some (buildLookupPayload st v), []) := by
    simp [resolvePrimaryMatch, hfix, hplate, hphoneLookup, hvehicles, hdig]
  have hsug : buildSuggestions st t (some v.id) [] = [] := by
    simp only [buildSuggestions, hfix]
    have hseeds : insertSeeds (some v.id) [] = [] := rfl
    rw [hseeds, insertCandidates_all_skip]
    · rfl
    · intro cand hcand
      have hmem := searchVehicleCandidates_vehicle_mem st t _ cand hcand
      rw [hv, List.mem_singleton] at hmem
      simp [matchGuard, hmem, hid]
  simp only [vehicleSearch, hfix]
  rw [if_neg ht, hrp]
  show some (SearchResult.mk (some (buildLookupPayload st v))
      (buildSuggestions st t (some v.id) [])) =
    some (SearchResult.mk (some (buildLookupPayload st v)) [])
  rw [hsug]

set_option maxRecDepth 8000 in
/-- Claim C7 counterexample: the two formattings of the same phone number have
    the same digits-only projection, yet searching them against the same store
    produces different results (the text-based fuzzy patterns of the bare-digit
    form also match an unrelated plate, adding a suggestion). -/
theorem C7_counterexample :
    digitsOf (normWS (codes "5551234567")) = digitsOf (normWS (codes "(555) 123-4567")) ∧
    vehicleSearch
      ⟨[⟨1, codes "555-123-4567", codes "Alice"⟩, ⟨2, codes "999", codes "Bob"⟩],
       [⟨1, 1, codes "AAA1", codes "Toyota", codes "Camry", 10⟩,
        ⟨2, 2, codes "X5551234567", codes "Honda", codes "Civic", 20⟩], []⟩
      (codes "5551234567") ≠
    vehicleSearch
      ⟨[⟨1, codes "555-123-4567", codes "Alice"⟩, ⟨2, codes "999", codes "Bob"⟩],
       [⟨1, 1, codes "AAA1", codes "Toyota", codes "Camry", 10⟩,
        ⟨2, 2, codes "X5551234567", codes "Honda", codes "Civic", 20⟩], []⟩
      (codes "(555) 123-4567") := by
  constructor
  · decide
  · decide

/-- Claim C7 (amended): in a store consisting of one customer whose phone has
    the searched digits and that customer's single vehicle (with a nonzero id),
    searching `"5551234567"` and `"(555) 123-4567"` produce identical results.
    (In general stores the two formattings can produce different suggestion
    lists, because the fuzzy patterns are built from the literal text.) -/
theorem C7_digit_invariance (st : Store) (c : Customer) (v : Vehicle)
    (hc : st.customers = [c]) (hv : st.vehicles = [v])
    (hphone : digitsOf c.phone = codes "5551234567")
    (hown : v.customerId = c.id) (hid : ¬ v.id = 0) :
    vehicleSearch st (codes "5551234567") = vehicleSearch st (codes "(555) 123-4567") := by
  have hd1 : digitsOf c.phone = digitsOf (codes "5551234567") := by
    rw [hphone]
    decide
  have hd2 : digitsOf c.phone = digitsOf (codes "(555) 123-4567") := by
    rw [hphone]
    decide
  rw [vehicleSearch_unique_phone st c v (codes "5551234567") hc hv (by decide) (by decide)
      (by decide) (by decide) hd1 hown hid]
  rw [vehicleSearch_unique_phone st c v (codes "(555) 123-4567") hc hv (by decide) (by decide)
      (by decide) (by decide) hd2 hown hid]

theorem C7_witness :
    vehicleSearch ⟨[⟨1, codes "555-123-4567", codes "Ann"⟩],
        [⟨1, 1, codes "ZZZ9", codes "Kia", codes "Rio", 7⟩], []⟩ (codes "5551234567") =
      vehicleSearch ⟨[⟨1, codes "555-123-4567", codes "Ann"⟩],
        [⟨1, 1, codes "ZZZ9", codes "Kia", codes "Rio", 7⟩], []⟩ (codes "(555) 123-4567") :=
  C7_digit_invariance
    ⟨[⟨1, codes "555-123-4567", codes "Ann"⟩],
     [⟨1, 1, codes "ZZZ9", codes "Kia", codes "Rio", 7⟩], []⟩
    ⟨1, codes "555-123-4567", codes "Ann"⟩
    ⟨1, 1, codes "ZZZ9", codes "Kia", codes "Rio", 7⟩
    rfl rfl (by decide) rfl (by decide)

/-! ## Claim C1: plate priority -/

theorem likeMatch_literal (fold : Nat → Nat) (ps : Str)
    (hmeta : ∀ ch ∈ ps, ch ≠ 37 ∧ ch ≠ 95 ∧ ch ≠ 92) :
    ∀ s : Str, likeMatch fold ps s = true ↔ s.map fold = ps.map fold := by
  induction ps with
  | nil =>
    intro s
    rw [likeMatch_nil_pattern]
    cases s with
    | nil => simp
    | cons x s2 => simp
  | cons p ps2 ih =>
    intro s
    obtain ⟨h37, h95, h92⟩ := hmeta p (List.mem_cons_self _ _)
    cases s with
    | nil =>
      rw [likeMatch_lit_nil fold p ps2 h37 h95 h92]
      simp
    | cons x s2 =>
      rw [likeMatch_lit_cons fold p ps2 x s2 h37 h95 h92]
      rw [Bool.and_eq_true, decide_eq_true_iff]
      rw [ih (fun ch hch => hmeta ch (List.mem_cons_of_mem _ hch)) s2]
      simp [List.map_cons, List.cons_eq_cons]

theorem upCode_idem (n : Nat) : upCode (upCode n) = upCode n := by
  unfold upCode
  split
  · split
    · omega
    · rfl
  · rfl

theorem upCode_meta (n : Nat) (h37 : n ≠ 37) (h95 : n ≠ 95) (h92 : n ≠ 92) :
    upCode n ≠ 37 ∧ upCode n ≠ 95 ∧ upCode n ≠ 92 := by
  unfold upCode
  split
  · omega
  · exact ⟨h37, h95, h92⟩

theorem find?_unique (p : Vehicle → Bool) (l : List Vehicle) (v : Vehicle)
    (hv : v ∈ l) (hpv : p v = true)
    (huniq : ∀ a ∈ l, p a = true → a = v) : l.find? p = some v := by
  induction l with
  | nil => simp at hv
  | cons a l2 ih =>
    by_cases hpa : p a = true
    · rw [List.find?_cons_of_pos _ hpa]
      rw [huniq a (List.mem_cons_self _ _) hpa]
    · rw [List.find?_cons_of_neg _ hpa]
      rcases List.mem_cons.mp hv with h1 | h1
      · exact absurd (h1 ▸ hpv) hpa
      · exact ih h1 (fun b hb hpb => huniq b (List.mem_cons_of_mem _ hb) hpb)

theorem collapseGo_cons (b : Bool) (a : Nat) (rest : Str) :
    collapseGo b (a :: rest) =
      if isWSCode a then
        (if b then collapseGo true rest else 32 :: collapseGo true rest)
      else a :: collapseGo false rest := by
  rw [collapseGo]

theorem collapseGo_true_head (s : Str) :
    ∀ c, (collapseGo true s).head? = some c → isWSCode c = false := by
  induction s with
  | nil =>
    intro c hc
    rw [collapseGo] at hc
    simp at hc
  | cons a rest ih =>
    intro c hc
    rw [collapseGo_cons] at hc
    by_cases hws : isWSCode a
    · rw [if_pos hws, if_pos rfl] at hc
      exact ih c hc
    · rw [if_neg hws] at hc
      simp only [List.head?_cons, Option.some.injEq] at hc
      rw [← hc]
      exact Bool.eq_false_iff.mpr hws
  
theorem collapseGo_mem (b : Bool) (s : Str) :
    ∀ c ∈ collapseGo b s, isWSCode c = true → c = 32 := by
  induction s generalizing b with
  | nil =>
    intro c hc
    rw [collapseGo] at hc
    exact absurd hc (List.not_mem_nil c)
  | cons a rest ih =>
    intro c hc hws
    rw [collapseGo_cons] at hc
    by_cases ha : isWSCode a
    · rw [if_pos ha] at hc
      cases b
      · rw [if_neg (by simp)] at hc
        rcases List.mem_cons.mp hc with h1 | h1
        · exact h1
        · exact ih true c h1 hws
      · rw [if_pos rfl] at hc
        exact ih true c hc hws
    · rw [if_neg ha] at hc
      rcases List.mem_cons.mp hc with h1 | h1
      · rw [h1] at hws
        exact absurd hws ha
      · exact ih false c h1 hws

theorem collapseGo_chain (s : Str) : ∀ b : Bool,
    (collapseGo b s).Chain' (fun x y => ¬(isWSCode x = true ∧ isWSCode y = true)) := by
  induction s with
  | nil =>
    intro b
    rw [collapseGo]
    exact List.chain'_nil
  | cons a rest ih =>
    intro b
    rw [collapseGo_cons]
    by_cases hws : isWSCode a
    · rw [if_pos hws]
      cases b
      · rw [if_neg (by simp)]
        refine List.chain'_cons'.mpr ⟨?_, ih true⟩
        intro y hy hand
        have := collapseGo_true_head rest y hy
        rw [this] at hand
        exact absurd hand.2 (by simp)
      · rw [if_pos rfl]
        exact ih true
    · rw [if_neg hws]
      refine List.chain'_cons'.mpr ⟨?_, ih false⟩
      intro y hy hand
      exact absurd hand.1 hws

theorem trimStr_prefix_drop (s : Str) :
    trimStr s <+: List.dropWhile isWSCode s := by
  unfold trimStr
  rw [← List.reverse_suffix, List.reverse_reverse]
  exact List.dropWhile_suffix _

theorem trimStr_within (s : Str) : trimStr s <:+: s := by
  exact (trimStr_prefix_drop s).isInfix.trans (List.dropWhile_suffix _).isInfix

theorem trimStr_head (s : Str) :
    ∀ c, (trimStr s).head? = some c → isWSCode c = false := by
  intro c hc
  have hne : trimStr s ≠ [] := by
    intro h0
    rw [h0] at hc
    simp at hc
  have hpre := trimStr_prefix_drop s
  have hdne : List.dropWhile isWSCode s ≠ [] := by
    intro h0
    rcases hpre with ⟨tl, htl⟩
    rw [h0] at htl
    exact hne (List.append_eq_nil.mp htl).1
  have hheads := hpre.head hne
  have hc2 : (trimStr s).head hne = c := by
    have h3 := List.head?_eq_head hne
    rw [hc] at h3
    injection h3 with h4
    exact h4.symm
  have hdw := List.head?_dropWhile_not isWSCode s
  rw [List.head?_eq_head hdne] at hdw
  rw [← hc2, hheads]
  exact hdw

theorem trimStr_last (s : Str) :
    ∀ c, (trimStr s).getLast? = some c → isWSCode c = false := by
  intro c hc
  unfold trimStr at hc
  rw [List.getLast?_reverse] at hc
  have hdw := List.head?_dropWhile_not isWSCode (List.dropWhile isWSCode s).reverse
  rw [hc] at hdw
  exact hdw

theorem collapseGo_fix (u : Str)
    (h32 : ∀ c ∈ u, isWSCode c = true → c = 32)
    (hch : u.Chain' (fun x y => ¬(isWSCode x = true ∧ isWSCode y = true))) :
    collapseGo false u = u ∧
      ((∀ c, u.head? = some c → isWSCode c = false) → collapseGo true u = u) := by
  induction u with
  | nil =>
    exact ⟨rfl, fun _ => rfl⟩
  | cons a rest ih =>
    obtain ⟨hrel, hchr⟩ := List.chain'_cons'.mp hch
    have ihr := ih (fun c hc h => h32 c (List.mem_cons_of_mem _ hc) h) hchr
    by_cases ha : isWSCode a = true
    · have ha32 : a = 32 := h32 a (List.mem_cons_self _ _) ha
      have hrest : collapseGo true rest = rest := by
        apply ihr.2
        intro c hc
        by_contra hcontra
        exact hrel c hc ⟨ha, Bool.not_eq_false _ ▸ hcontra⟩
      constructor
      · rw [collapseGo_cons, if_pos ha, if_neg (by simp), hrest, ha32]
      · intro hhead
        have := hhead a rfl
        rw [ha] at this
        exact absurd this (by simp)
    · constructor
      · rw [collapseGo_cons, if_neg ha, ihr.1]
      · intro _
        rw [collapseGo_cons, if_neg ha, ihr.1]

theorem dropWhile_head_fix (p : Nat → Bool) (u : Str)
    (h : ∀ c, u.head? = some c → p c = false) : u.dropWhile p = u := by
  cases u with
  | nil => rfl
  | cons a rest =>
    rw [List.dropWhile_cons, h a rfl]
    simp

theorem trimStr_fix (u : Str)
    (hhead : ∀ c, u.head? = some c → isWSCode c = false)
    (hlast : ∀ c, u.getLast? = some c → isWSCode c = false) :
    trimStr u = u := by
  unfold trimStr
  rw [dropWhile_head_fix _ _ hhead]
  rw [dropWhile_head_fix _ _ (by
    intro c hc
    rw [List.head?_reverse] at hc
    exact hlast c hc)]
  exact List.reverse_reverse u

theorem normWS_idem (s : Str) : normWS (normWS s) = normWS s := by
  have h32 : ∀ c ∈ normWS s, isWSCode c = true → c = 32 := by
    intro c hc h
    exact collapseGo_mem false s c (List.IsInfix.subset (trimStr_within _) hc) h
  have hch : (normWS s).Chain' (fun x y => ¬(isWSCode x = true ∧ isWSCode y = true)) :=
    List.Chain'.infix (collapseGo_chain s false) (trimStr_within _)
  have hcol : collapseWS (normWS s) = normWS s := (collapseGo_fix _ h32 hch).1
  show trimStr (collapseWS (normWS s)) = normWS s
  rw [hcol]
  exact trimStr_fix _ (trimStr_head _) (trimStr_last _)

theorem upStr_idem (s : Str) : upStr (upStr s) = upStr s := by
  unfold upStr
  rw [List.map_map]
  exact List.map_congr_left (fun a _ => upCode_idem a)

theorem getVehicleByPlate_exact (st : Store) (u : Str) (v : Vehicle)
    (hnodup : (st.vehicles.map (fun w => upStr w.plateNumber)).Nodup)
    (hmeta : ∀ ch ∈ u, ch ≠ 37 ∧ ch ≠ 95 ∧ ch ≠ 92)
    (hv : v ∈ st.vehicles)
    (heq : upStr v.plateNumber = upStr u) :
    getVehicleByPlate st (upStr u) = some v := by
  have hmeta2 : ∀ ch ∈ upStr u, ch ≠ 37 ∧ ch ≠ 95 ∧ ch ≠ 92 := by
    intro ch hch
    rw [upStr, List.mem_map] at hch
    obtain ⟨c0, hc0, hc0eq⟩ := hch
    obtain ⟨h37, h95, h92⟩ := hmeta c0 hc0
    rw [← hc0eq]
    exact upCode_meta c0 h37 h95 h92
  have hchar : ∀ w : Vehicle, ilikeCond (upStr u) w.plateNumber = true ↔
      upStr w.plateNumber = upStr u := by
    intro w
    unfold ilikeCond
    rw [likeMatch_literal upCode (upStr u) hmeta2 w.plateNumber]
    constructor
    · intro h
      rw [show (upStr u).map upCode = upStr (upStr u) from rfl, upStr_idem] at h
      exact h
    · intro h
      rw [show w.plateNumber.map upCode = upStr w.plateNumber from rfl, h,
        show (upStr u).map upCode = upStr (upStr u) from rfl, upStr_idem]
  unfold getVehicleByPlate
  apply find?_unique _ _ v hv
  · exact (hchar v).mpr heq
  · intro a ha hpa
    have h1 := (hchar a).mp hpa
    exact List.inj_on_of_nodup_map hnodup ha hv (h1.trans heq.symm)

set_option maxRecDepth 8000 in
/-- Claim C1 counterexample: the term `"AB_1"` is plate-like and equals the
    plate of vehicle 2 exactly (even byte-for-byte), yet the resolved match is
    vehicle 1 with plate `"ABC1"`: `getVehicleByPlate` passes the raw term to
    `ILIKE`, so the `_` acts as a single-character wildcard and the first
    matching row wins. -/
theorem C1_counterexample :
    isLikelyPlate (normWS (codes "AB_1")) = true ∧
    (∃ v ∈ (⟨[⟨1, codes "900-0000", codes "Alice"⟩],
        [⟨1, 1, codes "ABC1", codes "Toyota", codes "Camry", 10⟩,
         ⟨2, 1, codes "AB_1", codes "Honda", codes "Civic", 5⟩], []⟩ : Store).vehicles,
      upStr v.plateNumber = upStr (normWS (codes "AB_1")) ∧ v.id = 2) ∧
    (vehicleSearch (⟨[⟨1, codes "900-0000", codes "Alice"⟩],
        [⟨1, 1, codes "ABC1", codes "Toyota", codes "Camry", 10⟩,
         ⟨2, 1, codes "AB_1", codes "Honda", codes "Civic", 5⟩], []⟩ : Store)
      (codes "AB_1")).map (fun r => r.matchResult.map (fun p => p.vehicle.id)) =
      some (some 1) := by
  refine ⟨by decide, by decide, by decide⟩

/-- Claim C1 (amended): for every term that is plate-like after normalization
    and contains no SQL LIKE metacharacter (`%`, `_`, `\`), if a stored vehicle's
    plate equals the normalized term up to letter case then the search resolves
    to exactly that vehicle, regardless of fuzzy candidates.  (For terms
    containing a metacharacter the unescaped `ILIKE` lookup can resolve a
    different vehicle, as the counterexample shows.) -/
theorem C1_plate_priority (st : Store) (t : Str) (v : Vehicle)
    (hwf : WFStore st)
    (hplate : isLikelyPlate (normWS t) = true)
    (hmeta : ∀ ch ∈ normWS t, ch ≠ 37 ∧ ch ≠ 95 ∧ ch ≠ 92)
    (hv : v ∈ st.vehicles)
    (heq : upStr v.plateNumber = upStr (normWS t)) :
    ∃ r, vehicleSearch st t = some r ∧ r.matchResult = some (buildLookupPayload st v) := by
  have hne : ¬ normWS t = [] := by
    intro h0
    rw [h0] at hplate
    exact absurd hplate (by decide)
  have hfind : getVehicleByPlate st (upStr (normWS t)) = some v :=
    getVehicleByPlate_exact st (normWS t) v hwf.2.2.2.2.1 hmeta hv heq
  have hrp1 : (resolvePrimaryMatch st (normWS t)).1 = some (buildLookupPayload st v) := by
    simp only [resolvePrimaryMatch, normWS_idem]
    rw [if_pos ⟨hne, hplate⟩, hfind]
  simp only [vehicleSearch]
  rw [if_neg hne]
  refine ⟨_, rfl, ?_⟩
  exact hrp1

theorem C1_witness :
    isLikelyPlate (normWS (codes "xy12")) = true ∧
    (∃ r, vehicleSearch ⟨[⟨1, codes "555-0000", codes "Pat"⟩],
        [⟨1, 1, codes "XY12", codes "Mazda", codes "3", 10⟩,
         ⟨2, 1, codes "QQ99", codes "Mazda", codes "6", 20⟩], []⟩ (codes "xy12") = some r ∧
      r.matchResult = some (buildLookupPayload
        ⟨[⟨1, codes "555-0000", codes "Pat"⟩],
         [⟨1, 1, codes "XY12", codes "Mazda", codes "3", 10⟩,
          ⟨2, 1, codes "QQ99", codes "Mazda", codes "6", 20⟩], []⟩
        ⟨1, 1, codes "XY12", codes "Mazda", codes "3", 10⟩)) :=
  ⟨by decide,
   C1_plate_priority
     ⟨[⟨1, codes "555-0000", codes "Pat"⟩],
      [⟨1, 1, codes "XY12", codes "Mazda", codes "3", 10⟩,
       ⟨2, 1, codes "QQ99", codes "Mazda", codes "6", 20⟩], []⟩
     (codes "xy12")
     ⟨1, 1, codes "XY12", codes "Mazda", codes "3", 10⟩
     (by decide) (by decide) (by decide) (by decide) (by decide)⟩

/-! ## Claim C2: phone cardinality guard -/

set_option maxRecDepth 8000 in
set_option maxHeartbeats 4000000 in
/-- Claim C2 counterexample: exactly one customer's phone digits equal the
    digits of the term (length 7 ≥ 7) and that customer owns exactly 2 vehicles,
    yet the search returns 3 suggestions: the digit patterns also fetch a
    vehicle of another customer whose phone digits merely contain the term. -/
theorem C2_counterexample :
    ((vehicleSearch
      ⟨[⟨1, codes "1234567", codes "A"⟩, ⟨2, codes "91234567", codes "B"⟩],
       [⟨1, 1, codes "A1", codes "T", codes "C", 10⟩,
        ⟨2, 1, codes "B2", codes "T", codes "C", 20⟩,
        ⟨3, 2, codes "Z9", codes "T", codes "C", 30⟩], []⟩
      (codes "1234567")).map
        (fun r => (r.matchResult.map (fun p => p.vehicle.id),
          r.suggestions.map (fun s => (s.vehicle.id, s.reason))))) =
      some (none, [(1, SuggestionReason.phone), (2, SuggestionReason.phone),
        (3, SuggestionReason.phone)]) := by
  have hraw : ((((joinRows
      ⟨[⟨1, codes "1234567", codes "A"⟩, ⟨2, codes "91234567", codes "B"⟩],
       [⟨1, 1, codes "A1", codes "T", codes "C", 10⟩,
        ⟨2, 1, codes "B2", codes "T", codes "C", 20⟩,
        ⟨3, 2, codes "Z9", codes "T", codes "C", 30⟩], []⟩).filter
      (rowMatchesConditions (buildFuzzyPatterns (codes "1234567"))
        (buildDigitPatterns (codes "1234567")))).insertionSort byCreatedDesc).take
      (max 10 5 * 6)) =
      [⟨⟨3, 2, codes "Z9", codes "T", codes "C", 30⟩, some ⟨2, codes "91234567", codes "B"⟩⟩,
       ⟨⟨2, 1, codes "B2", codes "T", codes "C", 20⟩, some ⟨1, codes "1234567", codes "A"⟩⟩,
       ⟨⟨1, 1, codes "A1", codes "T", codes "C", 10⟩, some ⟨1, codes "1234567", codes "A"⟩⟩] := by
    decide
  have hscored : scoredFold (codes "1234567") (codes "1234567")
      [⟨⟨3, 2, codes "Z9", codes "T", codes "C", 30⟩, some ⟨2, codes "91234567", codes "B"⟩⟩,
       ⟨⟨2, 1, codes "B2", codes "T", codes "C", 20⟩, some ⟨1, codes "1234567", codes "A"⟩⟩,
       ⟨⟨1, 1, codes "A1", codes "T", codes "C", 10⟩, some ⟨1, codes "1234567", codes "A"⟩⟩] =
      [(⟨⟨3, 2, codes "Z9", codes "T", codes "C", 30⟩, some ⟨2, codes "91234567", codes "B"⟩⟩,
         mkRat 71 80),
       (⟨⟨2, 1, codes "B2", codes "T", codes "C", 20⟩, some ⟨1, codes "1234567", codes "A"⟩⟩, 1),
       (⟨⟨1, 1, codes "A1", codes "T", codes "C", 10⟩, some ⟨1, codes "1234567", codes "A"⟩⟩,
         1)] := by
    decide
  have hfetch : searchVehicleCandidates
      ⟨[⟨1, codes "1234567", codes "A"⟩, ⟨2, codes "91234567", codes "B"⟩],
       [⟨1, 1, codes "A1", codes "T", codes "C", 10⟩,
        ⟨2, 1, codes "B2", codes "T", codes "C", 20⟩,
        ⟨3, 2, codes "Z9", codes "T", codes "C", 30⟩], []⟩ (codes "1234567") 10 =
      [⟨⟨2, 1, codes "B2", codes "T", codes "C", 20⟩, some ⟨1, codes "1234567", codes "A"⟩⟩,
       ⟨⟨1, 1, codes "A1", codes "T", codes "C", 10⟩, some ⟨1, codes "1234567", codes "A"⟩⟩,
       ⟨⟨3, 2, codes "Z9", codes "T", codes "C", 30⟩,
         some ⟨2, codes "91234567", codes "B"⟩⟩] := by
    simp only [searchVehicleCandidates]
    rw [show trimStr (codes "1234567") = codes "1234567" from by decide]
    rw [if_neg (by decide)]
    rw [show upStr (codes "1234567") = codes "1234567" from by decide]
    rw [show digitsOf (codes "1234567") = codes "1234567" from by decide]
    rw [if_pos (by decide)]
    rw [hraw, hscored]
    decide
  have hrp : resolvePrimaryMatch
      ⟨[⟨1, codes "1234567", codes "A"⟩, ⟨2, codes "91234567", codes "B"⟩],
       [⟨1, 1, codes "A1", codes "T", codes "C", 10⟩,
        ⟨2, 1, codes "B2", codes "T", codes "C", 20⟩,
        ⟨3, 2, codes "Z9", codes "T", codes "C", 30⟩], []⟩ (codes "1234567") =
      (none,
       [⟨⟨1, 1, codes "A1", codes "T", codes "C", 10⟩, some ⟨1, codes "1234567", codes "A"⟩,
         SuggestionReason.phone⟩,
        ⟨⟨2, 1, codes "B2", codes "T", codes "C", 20⟩, some ⟨1, codes "1234567", codes "A"⟩,
         SuggestionReason.phone⟩]) := by
    decide
  have hsug : buildSuggestions
      ⟨[⟨1, codes "1234567", codes "A"⟩, ⟨2, codes "91234567", codes "B"⟩],
       [⟨1, 1, codes "A1", codes "T", codes "C", 10⟩,
        ⟨2, 1, codes "B2", codes "T", codes "C", 20⟩,
        ⟨3, 2, codes "Z9", codes "T", codes "C", 30⟩], []⟩ (codes "1234567") none
      [⟨⟨1, 1, codes "A1", codes "T", codes "C", 10⟩, some ⟨1, codes "1234567", codes "A"⟩,
        SuggestionReason.phone⟩,
       ⟨⟨2, 1, codes "B2", codes "T", codes "C", 20⟩, some ⟨1, codes "1234567", codes "A"⟩,
        SuggestionReason.phone⟩] =
      [⟨⟨1, 1, codes "A1", codes "T", codes "C", 10⟩, some ⟨1, codes "1234567", codes "A"⟩,
        SuggestionReason.phone⟩,
       ⟨⟨2, 1, codes "B2", codes "T", codes "C", 20⟩, some ⟨1, codes "1234567", codes "A"⟩,
        SuggestionReason.phone⟩,
       ⟨⟨3, 2, codes "Z9", codes "T", codes "C", 30⟩, some ⟨2, codes "91234567", codes "B"⟩,
        SuggestionReason.phone⟩] := by
    simp only [buildSuggestions]
    rw [show normWS (codes "1234567") = codes "1234567" from by decide]
    rw [show digitsOf (codes "1234567") = codes "1234567" from by decide]
    rw [show max VEHICLE_SUGGESTION_LIMIT (List.length
      [(⟨⟨1, 1, codes "A1", codes "T", codes "C", 10⟩, some ⟨1, codes "1234567", codes "A"⟩,
        SuggestionReason.phone⟩ : SuggestionPayload),
       ⟨⟨2, 1, codes "B2", codes "T", codes "C", 20⟩, some ⟨1, codes "1234567", codes "A"⟩,
        SuggestionReason.phone⟩]) * 2 = 10 from by decide]
    rw [hfetch]
    decide
  simp only [vehicleSearch]
  rw [show normWS (codes "1234567") = codes "1234567" from by decide]
  rw [if_neg (by decide), hrp]
  show (some (SearchResult.mk none (buildSuggestions
      ⟨[⟨1, codes "1234567", codes "A"⟩, ⟨2, codes "91234567", codes "B"⟩],
       [⟨1, 1, codes "A1", codes "T", codes "C", 10⟩,
        ⟨2, 1, codes "B2", codes "T", codes "C", 20⟩,
        ⟨3, 2, codes "Z9", codes "T", codes "C", 30⟩], []⟩ (codes "1234567") none
      [⟨⟨1, 1, codes "A1", codes "T", codes "C", 10⟩, some ⟨1, codes "1234567", codes "A"⟩,
        SuggestionReason.phone⟩,
       ⟨⟨2, 1, codes "B2", codes "T", codes "C", 20⟩, some ⟨1, codes "1234567", codes "A"⟩,
        SuggestionReason.phone⟩]))).map
        (fun r => (r.matchResult.map (fun p => p.vehicle.id),
          r.suggestions.map (fun s => (s.vehicle.id, s.reason)))) =
      some (none, [(1, SuggestionReason.phone), (2, SuggestionReason.phone),
        (3, SuggestionReason.phone)])
  rw [hsug]
  decide

theorem insertCandidates_all_dup (mid : Option Nat) (t d : Str) :
    ∀ (l : List VehicleWithCustomer) (acc : List SuggestionPayload),
      (∀ cand ∈ l, hasId acc cand.vehicle.id = true) →
      insertCandidates mid t d acc l = acc := by
  intro l
  induction l with
  | nil =>
    intro acc h
    rw [insertCandidates]
  | cons cand l2 ih =>
    intro acc h
    rw [insertCandidates]
    by_cases hg : matchGuard mid cand.vehicle.id = true
    · rw [if_pos hg]
      exact ih acc (fun x hx => h x (List.mem_cons_of_mem _ hx))
    · rw [if_neg hg, if_pos (h cand (List.mem_cons_self _ _))]
      exact ih acc (fun x hx => h x (List.mem_cons_of_mem _ hx))

/-- Claim C2 (amended): in a store consisting of exactly the phone-matched
    customer and that customer's two vehicles, searching a term whose digits
    equal the customer's phone digits (length ≥ 7, not plate-like, not the
    customer's name) yields match `none` and exactly the two phone-tagged
    suggestions.  (In larger stores the fuzzy fetcher can add further
    suggestions, as the counterexample shows.) -/
theorem C2_cardinality_guard (st : Store) (c : Customer) (v1 v2 : Vehicle) (t : Str)
    (hc : st.customers = [c]) (hv : st.vehicles = [v1, v2])
    (hplate : isLikelyPlate (normWS t) = false)
    (hlen : 7 ≤ (digitsOf (normWS t)).length)
    (hphone : digitsOf c.phone = digitsOf (normWS t))
    (hown1 : v1.customerId = c.id) (hown2 : v2.customerId = c.id)
    (hne : v1.id ≠ v2.id)
    (hname : ¬ loStr c.name = loStr (trimStr (normWS t))) :
    vehicleSearch st t = some ⟨none,
      [⟨v1, some c, SuggestionReason.phone⟩, ⟨v2, some c, SuggestionReason.phone⟩]⟩ := by
  have hnwne : ¬ normWS t = [] := by
    intro h0
    rw [h0] at hlen
    simp [digitsOf] at hlen
  have hphoneLookup : getCustomerByNormalizedPhone st (digitsOf (normWS t)) = some c := by
    simp only [getCustomerByNormalizedPhone, digitsOf_idem]
    rw [if_neg (by intro h0; rw [h0] at hlen; simp at hlen), hc]
    simp [List.find?, hphone]
  have hvehicles : getVehiclesByCustomer st c.id = [v1, v2] := by
    simp only [getVehiclesByCustomer]
    rw [hv]
    simp [hown1, hown2]
  have hbyname : getCustomersByExactName st (normWS t) = [] := by
    simp only [getCustomersByExactName]
    split
    · rfl
    · rw [hc]
      simp [hname]
  have hrp : resolvePrimaryMatch st (normWS t) = (none,
      [⟨v1, some c, SuggestionReason.phone⟩, ⟨v2, some c, SuggestionReason.phone⟩]) := by
    simp [resolvePrimaryMatch, normWS_idem, hplate, hphoneLookup, hvehicles, hlen, hbyname]
  have hseeds : insertSeeds none
      [⟨v1, some c, SuggestionReason.phone⟩, ⟨v2, some c, SuggestionReason.phone⟩] =
      [⟨v1, some c, SuggestionReason.phone⟩, ⟨v2, some c, SuggestionReason.phone⟩] := by
    simp [insertSeeds, matchGuard, hasId, hne]
  have hsug : buildSuggestions st (normWS t) none
      [⟨v1, some c, SuggestionReason.phone⟩, ⟨v2, some c, SuggestionReason.phone⟩] =
      [⟨v1, some c, SuggestionReason.phone⟩, ⟨v2, some c, SuggestionReason.phone⟩] := by
    simp only [buildSuggestions, normWS_idem, hseeds]
    rw [insertCandidates_all_dup]
    · rfl
    · intro cand hcand
      have hmem := searchVehicleCandidates_vehicle_mem st (normWS t) _ cand hcand
      rw [hv] at hmem
      rcases List.mem_cons.mp hmem with h1 | h1
      · simp [hasId, h1]
      · rw [List.mem_singleton.mp h1]
        simp [hasId]
  simp only [vehicleSearch]
  rw [if_neg hnwne, hrp]
  show some (SearchResult.mk none (buildSuggestions st (normWS t) none
    [⟨v1, some c, SuggestionReason.phone⟩, ⟨v2, some c, SuggestionReason.phone⟩])) = _
  rw [hsug]

theorem C2_witness :
    vehicleSearch ⟨[⟨1, codes "777-8888", codes "Mo"⟩],
      [⟨1, 1, codes "AA1", codes "T", codes "C", 10⟩,
       ⟨2, 1, codes "BB2", codes "T", codes "C", 20⟩], []⟩ (codes "777-8888") =
      some ⟨none,
        [⟨⟨1, 1, codes "AA1", codes "T", codes "C", 10⟩, some ⟨1, codes "777-8888", codes "Mo"⟩,
          SuggestionReason.phone⟩,
         ⟨⟨2, 1, codes "BB2", codes "T", codes "C", 20⟩, some ⟨1, codes "777-8888", codes "Mo"⟩,
          SuggestionReason.phone⟩]⟩ :=
  C2_cardinality_guard
    ⟨[⟨1, codes "777-8888", codes "Mo"⟩],
     [⟨1, 1, codes "AA1", codes "T", codes "C", 10⟩,
      ⟨2, 1, codes "BB2", codes "T", codes "C", 20⟩], []⟩
    ⟨1, codes "777-8888", codes "Mo"⟩
    ⟨1, 1, codes "AA1", codes "T", codes "C", 10⟩
    ⟨2, 1, codes "BB2", codes "T", codes "C", 20⟩
    (codes "777-8888")
    rfl rfl (by decide) (by decide) (by decide) rfl rfl (by decide) (by decide)

/-! ## Claim C3: assembly and ordering of the suggestion list -/

theorem candLE_total : ∀ a b : VehicleWithCustomer × ℚ, candLE a b ∨ candLE b a := by
  intro a b
  unfold candLE
  by_cases h : a.2 = b.2
  · rw [if_pos h, if_pos h.symm]
    exact Nat.le_total b.1.vehicle.createdAt a.1.vehicle.createdAt
  · rw [if_neg h, if_neg (fun h2 => h h2.symm)]
    exact (lt_or_gt_of_ne h).symm

theorem candLE_trans : ∀ a b c : VehicleWithCustomer × ℚ,
    candLE a b → candLE b c → candLE a c := by
  intro a b c hab hbc
  unfold candLE at hab hbc ⊢
  by_cases h1 : a.2 = b.2 <;> by_cases h2 : b.2 = c.2
  · rw [if_pos h1] at hab
    rw [if_pos h2] at hbc
    rw [if_pos (h1.trans h2)]
    exact le_trans hbc hab
  · rw [if_pos h1] at hab
    rw [if_neg h2] at hbc
    rw [if_neg (by rw [h1]; exact h2)]
    rw [h1]
    exact hbc
  · rw [if_neg h1] at hab
    rw [if_pos h2] at hbc
    rw [if_neg (by rw [← h2]; exact h1)]
    rw [← h2]
    exact hab
  · rw [if_neg h1] at hab
    rw [if_neg h2] at hbc
    have h3 : c.2 < a.2 := lt_trans hbc hab
    rw [if_neg (fun h4 => lt_irrefl _ (h4 ▸ h3))]
    exact h3

theorem upsertScored_mem (acc : List (VehicleWithCustomer × ℚ)) (r : VehicleWithCustomer)
    (s : ℚ) (e : VehicleWithCustomer × ℚ) (he : e ∈ upsertScored acc r s) :
    e ∈ acc ∨ e = (r, s) := by
  unfold upsertScored at he
  split at he
  · rw [List.mem_map] at he
    obtain ⟨a, ha, heq⟩ := he
    split at heq
    · exact Or.inr heq.symm
    · exact Or.inl (heq ▸ ha)
  · rcases List.mem_append.mp he with h1 | h1
    · exact Or.inl h1
    · exact Or.inr (List.mem_singleton.mp h1)

theorem scoredFold_score (t d : Str) :
    ∀ (l : List VehicleWithCustomer) (acc : List (VehicleWithCustomer × ℚ)),
      (∀ e ∈ acc, e.2 = computeCandidateScore t d e.1) →
      ∀ e ∈ l.foldl (fun acc r => upsertScored acc r (computeCandidateScore t d r)) acc,
        e.2 = computeCandidateScore t d e.1 := by
  intro l
  induction l with
  | nil =>
    intro acc h e he
    exact h e he
  | cons r l2 ih =>
    intro acc h e he
    simp only [List.foldl_cons] at he
    refine ih _ ?_ e he
    intro x hx
    rcases upsertScored_mem _ _ _ _ hx with h1 | h1
    · exact h x h1
    · rw [h1]

theorem upsertScored_ids (acc : List (VehicleWithCustomer × ℚ)) (r : VehicleWithCustomer)
    (s : ℚ) (h : (acc.map (fun e => e.1.vehicle.id)).Nodup) :
    ((upsertScored acc r s).map (fun e => e.1.vehicle.id)).Nodup := by
  unfold upsertScored
  split
  case isTrue hany =>
    have hmap : ((acc.map (fun e =>
        if e.1.vehicle.id == r.vehicle.id ∧ e.2 < s then (r, s) else e)).map
        (fun e => e.1.vehicle.id)) = acc.map (fun e => e.1.vehicle.id) := by
      rw [List.map_map]
      apply List.map_congr_left
      intro a ha
      simp only [Function.comp]
      split
      case isTrue hcond =>
        exact (beq_iff_eq.mp hcond.1).symm
      case isFalse hcond =>
        rfl
    rw [hmap]
    exact h
  case isFalse hany =>
    rw [List.map_append]
    rw [List.nodup_append]
    refine ⟨h, List.nodup_singleton _, ?_⟩
    simp only [List.map_cons, List.map_nil]
    rw [List.disjoint_singleton]
    intro hmem
    apply hany
    rw [List.any_eq_true]
    rw [List.mem_map] at hmem
    obtain ⟨e, he, heq⟩ := hmem
    exact ⟨e, he, beq_iff_eq.mpr heq⟩

theorem scoredFold_ids (t d : Str) :
    ∀ (l : List VehicleWithCustomer) (acc : List (VehicleWithCustomer × ℚ)),
      (acc.map (fun e => e.1.vehicle.id)).Nodup →
      ((l.foldl (fun acc r => upsertScored acc r (computeCandidateScore t d r)) acc).map
        (fun e => e.1.vehicle.id)).Nodup := by
  intro l
  induction l with
  | nil =>
    intro acc h
    exact h
  | cons r l2 ih =>
    intro acc h
    simp only [List.foldl_cons]
    exact ih _ (upsertScored_ids acc r _ h)

theorem searchVehicleCandidates_ids_nodup (st : Store) (term : Str) (k : Nat) :
    ((searchVehicleCandidates st term k).map (fun c => c.vehicle.id)).Nodup := by
  simp only [searchVehicleCandidates]
  split
  · simp
  · rw [List.map_map]
    have h1 : ((scoredFold (upStr (trimStr term)) (digitsOf (trimStr term))
        ((((joinRows st).filter
          (rowMatchesConditions (buildFuzzyPatterns (trimStr term))
            (if digitsOf (trimStr term) ≠ [] then buildDigitPatterns (digitsOf (trimStr term))
             else []))).insertionSort byCreatedDesc).take (max k 5 * 6))).map
        (fun e => e.1.vehicle.id)).Nodup := by
      rw [scoredFold]
      exact scoredFold_ids _ _ _ [] (by simp)
    have h2 := ((List.perm_insertionSort candLE _).map
      (fun e : VehicleWithCustomer × ℚ => e.1.vehicle.id)).nodup_iff.mpr h1
    have h3 := List.Nodup.sublist (List.Sublist.map _ (List.take_sublist k _)) h2
    simpa [Function.comp] using h3

theorem searchVehicleCandidates_sorted (st : Store) (term : Str) (k : Nat) :
    List.Pairwise (fetchOrdered term) (searchVehicleCandidates st term k) := by
  simp only [searchVehicleCandidates]
  split
  · exact List.Pairwise.nil
  · rw [List.pairwise_map]
    have hsorted : List.Pairwise candLE
        ((scoredFold (upStr (trimStr term)) (digitsOf (trimStr term))
          ((((joinRows st).filter
            (rowMatchesConditions (buildFuzzyPatterns (trimStr term))
              (if digitsOf (trimStr term) ≠ [] then buildDigitPatterns (digitsOf (trimStr term))
               else []))).insertionSort byCreatedDesc).take
            (max k 5 * 6))).insertionSort candLE) :=
      @List.sorted_insertionSort _ candLE _ ⟨candLE_total⟩ ⟨candLE_trans⟩ _
    have htake := List.Pairwise.sublist (List.take_sublist k _) hsorted
    refine htake.imp_of_mem ?_
    intro a b ha hb hab
    have hmema := (List.perm_insertionSort candLE _).mem_iff.mp (List.take_subset _ _ ha)
    have hmemb := (List.perm_insertionSort candLE _).mem_iff.mp (List.take_subset _ _ hb)
    rw [scoredFold] at hmema hmemb
    have hsa : a.2 = fetchScore term a.1 :=
      scoredFold_score _ _ _ [] (fun e he => absurd he (List.not_mem_nil e)) a hmema
    have hsb : b.2 = fetchScore term b.1 :=
      scoredFold_score _ _ _ [] (fun e he => absurd he (List.not_mem_nil e)) b hmemb
    unfold candLE at hab
    unfold fetchOrdered
    by_cases heq : a.2 = b.2
    · rw [if_pos heq] at hab
      exact Or.inr ⟨by rw [← hsa, ← hsb, heq], hab⟩
    · rw [if_neg heq] at hab
      exact Or.inl (by rw [← hsa, ← hsb]; exact hab)

theorem insertSeeds_eq_specSeedPart (mid : Option Nat) (seeds : List SuggestionPayload) :
    insertSeeds mid seeds = specSeedPart mid seeds := by
  unfold insertSeeds specSeedPart dedupById
  suffices h : ∀ (l : List SuggestionPayload) (acc : List SuggestionPayload),
      l.foldl (fun acc s =>
        if matchGuard mid s.vehicle.id then acc
        else if hasId acc s.vehicle.id then acc else acc ++ [s]) acc =
      (l.filter (fun s => !matchGuard mid s.vehicle.id)).foldl (fun acc s =>
        if hasId acc s.vehicle.id then acc else acc ++ [s]) acc by
    exact h seeds []
  intro l
  induction l with
  | nil =>
    intro acc
    rfl
  | cons s l2 ih =>
    intro acc
    rw [List.foldl_cons, List.filter_cons]
    by_cases hg : matchGuard mid s.vehicle.id = true
    · rw [if_pos hg]
      rw [if_neg (show ¬((!matchGuard mid s.vehicle.id) = true) from by rw [hg]; simp)]
      exact ih acc
    · have hg2 : matchGuard mid s.vehicle.id = false := by
        revert hg
        cases matchGuard mid s.vehicle.id <;> simp
      rw [if_neg hg]
      rw [if_pos (show (!matchGuard mid s.vehicle.id) = true from by rw [hg2]; simp)]
      rw [List.foldl_cons]
      exact ih _

theorem insertCandidates_take (mid : Option Nat) (nt d : Str) :
    ∀ (l : List VehicleWithCustomer) (acc : List SuggestionPayload),
      (l.map (fun c => c.vehicle.id)).Nodup →
      (insertCandidates mid nt d acc l).take VEHICLE_SUGGESTION_LIMIT =
      (acc ++ (l.filter (fun c => !matchGuard mid c.vehicle.id &&
          !hasId acc c.vehicle.id)).map (fun c => (⟨c.vehicle, c.customer,
          determineSuggestionReason nt d c.vehicle c.customer⟩ : SuggestionPayload))).take
        VEHICLE_SUGGESTION_LIMIT := by
  intro l
  induction l with
  | nil =>
    intro acc _
    rw [insertCandidates]
    simp
  | cons c rest ih =>
    intro acc hnodup
    rw [List.map_cons] at hnodup
    have hnodup2 := (List.nodup_cons.mp hnodup).2
    have hcid : c.vehicle.id ∉ rest.map (fun x => x.vehicle.id) := (List.nodup_cons.mp hnodup).1
    rw [insertCandidates, List.filter_cons]
    by_cases hg : matchGuard mid c.vehicle.id = true
    · rw [if_pos hg]
      rw [if_neg (show ¬((!matchGuard mid c.vehicle.id && !hasId acc c.vehicle.id) = true) from
        by rw [hg]; simp)]
      exact ih acc hnodup2
    · have hg2 : matchGuard mid c.vehicle.id = false := by
        revert hg
        cases matchGuard mid c.vehicle.id <;> simp
      rw [if_neg hg]
      by_cases hh : hasId acc c.vehicle.id = true
      · rw [if_pos hh]
        rw [if_neg (show ¬((!matchGuard mid c.vehicle.id && !hasId acc c.vehicle.id) = true) from
          by rw [hg2, hh]; simp)]
        exact ih acc hnodup2
      · have hh2 : hasId acc c.vehicle.id = false := by
          revert hh
          cases hasId acc c.vehicle.id <;> simp
        rw [if_neg hh]
        rw [if_pos (show (!matchGuard mid c.vehicle.id && !hasId acc c.vehicle.id) = true from
          by rw [hg2, hh2]; simp)]
        rw [List.map_cons]
        by_cases hlimit : VEHICLE_SUGGESTION_LIMIT ≤ (acc ++
            [(⟨c.vehicle, c.customer, determineSuggestionReason nt d c.vehicle c.customer⟩ :
              SuggestionPayload)]).length
        · rw [if_pos hlimit]
          rw [show acc ++ (⟨c.vehicle, c.customer,
              determineSuggestionReason nt d c.vehicle c.customer⟩ ::
              (rest.filter (fun x => !matchGuard mid x.vehicle.id &&
                !hasId acc x.vehicle.id)).map (fun x => ⟨x.vehicle, x.customer,
                determineSuggestionReason nt d x.vehicle x.customer⟩)) =
            (acc ++ [(⟨c.vehicle, c.customer,
              determineSuggestionReason nt d c.vehicle c.customer⟩ : SuggestionPayload)]) ++
              (rest.filter (fun x => !matchGuard mid x.vehicle.id &&
                !hasId acc x.vehicle.id)).map (fun x => ⟨x.vehicle, x.customer,
                determineSuggestionReason nt d x.vehicle x.customer⟩) from by
            rw [List.append_assoc, List.singleton_append]]
          rw [List.take_append_of_le_length hlimit]
        · rw [if_neg hlimit]
          rw [ih _ hnodup2]
          have hfc : rest.filter (fun x => !matchGuard mid x.vehicle.id &&
              !hasId (acc ++ [(⟨c.vehicle, c.customer,
                determineSuggestionReason nt d c.vehicle c.customer⟩ : SuggestionPayload)])
                x.vehicle.id) =
              rest.filter (fun x => !matchGuard mid x.vehicle.id &&
                !hasId acc x.vehicle.id) := by
            apply List.filter_congr
            intro x hx
            have hxid : ¬ x.vehicle.id = c.vehicle.id := by
              intro h0
              exact hcid (h0 ▸ List.mem_map_of_mem _ hx)
            have hhas : hasId (acc ++ [(⟨c.vehicle, c.customer,
                determineSuggestionReason nt d c.vehicle c.customer⟩ : SuggestionPayload)])
                x.vehicle.id = hasId acc x.vehicle.id := by
              unfold hasId
              rw [List.any_append]
              simp only [List.any_cons, List.any_nil, Bool.or_false]
              rw [show ((⟨c.vehicle, c.customer, determineSuggestionReason nt d c.vehicle
                  c.customer⟩ : SuggestionPayload).vehicle.id == x.vehicle.id) = false from
                beq_eq_false_iff_ne.mpr (fun h0 => hxid h0.symm)]
              rw [Bool.or_false]
            rw [hhas]
          rw [hfc, List.append_assoc, List.singleton_append]

theorem buildSuggestions_eq_spec (st : Store) (term : Str) (mid : Option Nat)
    (seeds : List SuggestionPayload) :
    buildSuggestions st term mid seeds = specAssembled st term mid seeds := by
  simp only [buildSuggestions, specAssembled, specCandPart]
  rw [insertSeeds_eq_specSeedPart]
  exact insertCandidates_take mid (normWS term) (digitsOf (normWS term)) _ _
    (searchVehicleCandidates_ids_nodup st (normWS term) _)

/-- Claim C3: for every input, the final suggestion list is the seed
    suggestions (deduplicated, match excluded, rank-agnostic highest priority)
    followed by the fetched scored candidates (deduplicated against the seeds
    and each other, match excluded, tagged with their reason) in fetch order,
    truncated to the limit; and the fetch order is exactly score descending
    with ties broken by vehicle creation timestamp descending. -/
theorem C3_suggestion_assembly (st : Store) (term : Str) (mid : Option Nat)
    (seeds : List SuggestionPayload) :
    buildSuggestions st term mid seeds = specAssembled st term mid seeds ∧
    List.Pairwise (fetchOrdered (normWS term))
      (searchVehicleCandidates st (normWS term)
        (max VEHICLE_SUGGESTION_LIMIT seeds.length * 2)) :=
  ⟨buildSuggestions_eq_spec st term mid seeds,
   searchVehicleCandidates_sorted st (normWS term) _⟩
